import Mathlib

/-!
# Verification of the commons-math-interpolation numeric core

A shallow embedding, in Lean 4, of the TypeScript library
`commons-math-interpolation` (piecewise-linear, natural cubic spline, Akima
spline, nearest-neighbor interpolation and LOESS local regression), together
with theorems settling the frozen claims about its specification.

Modelling conventions:
* JS `number` values that the library validates to be finite are modelled as
  rationals (`ℚ`); arithmetic on them is exact.  `NaN` is modelled explicitly
  by the type `ENum` (`nan` or `fin q`) wherever the source can produce or
  consume a NaN (binary-search comparisons, nearest-neighbor with no points,
  LOESS fit values, robustness weights).
* JS exceptions are modelled with `Except Err`; each distinct error message
  of the source gets its own `Err` constructor.
* `Float64Array`/`ArrayLike` become `List ℚ` (or `List ENum`); out-of-range
  reads, which the source never performs on its validated inputs, are
  modelled with `List.getD` defaults.
* Division: `ℚ` division by zero yields 0 (JS would yield ±Infinity or NaN).
  Every division performed by the algorithms on validated inputs has a
  provably nonzero denominator, except in corners noted by comments.
-/

namespace CMI

/-- The error kinds thrown by the library (one per distinct `throw` message). -/
inductive Err where
  | dimensionMismatch
  | tooFewPoints
  | invalidSequence
  | invalidComparison
  | unknownMethod
  | insufficientPoints
  | inconsistentBandwidth
  | bandwidthNotFound
  deriving DecidableEq, Repr

instance {ε α : Type} [DecidableEq ε] [DecidableEq α] : DecidableEq (Except ε α) := fun x y =>
  match x, y with
  | .ok a, .ok b =>
      if h : a = b then .isTrue (by rw [h]) else .isFalse (by intro hh; cases hh; exact h rfl)
  | .error a, .error b =>
      if h : a = b then .isTrue (by rw [h]) else .isFalse (by intro hh; cases hh; exact h rfl)
  | .ok _, .error _ => .isFalse (by intro hh; cases hh)
  | .error _, .ok _ => .isFalse (by intro hh; cases hh)

/-- An IEEE double restricted to the values relevant here: either NaN or a
finite value (modelled as a rational).  Infinities never reach the modelled
code paths on validated inputs. -/
inductive ENum where
  | nan : ENum
  | fin : ℚ → ENum
  deriving DecidableEq, Repr

namespace ENum

/-- JS `<` comparison: any comparison involving NaN is false. -/
def blt : ENum → ENum → Bool
  | .fin a, .fin b => decide (a < b)
  | _, _ => false

/-- JS `>` comparison: any comparison involving NaN is false. -/
def bgt : ENum → ENum → Bool
  | .fin a, .fin b => decide (b < a)
  | _, _ => false

/-- JS `==` comparison: `NaN == x` is false for every `x`, including NaN. -/
def beq : ENum → ENum → Bool
  | .fin a, .fin b => decide (a = b)
  | _, _ => false

/-- JS `>=` comparison: false whenever NaN is involved. -/
def bge : ENum → ENum → Bool
  | .fin a, .fin b => decide (b ≤ a)
  | _, _ => false

/-- JS addition; NaN propagates. -/
def add : ENum → ENum → ENum
  | .fin a, .fin b => .fin (a + b)
  | _, _ => .nan

/-- JS subtraction; NaN propagates. -/
def sub : ENum → ENum → ENum
  | .fin a, .fin b => .fin (a - b)
  | _, _ => .nan

/-- JS multiplication; NaN propagates.  (`0 * Infinity`, the other NaN
source, cannot arise: infinities are outside the model.) -/
def mul : ENum → ENum → ENum
  | .fin a, .fin b => .fin (a * b)
  | _, _ => .nan

/-- JS division; NaN propagates.  For a zero denominator JS yields ±Infinity
(or NaN for 0/0); the model yields `fin 0`.  All divisions reached by the
algorithms on validated inputs have nonzero denominators. -/
def div : ENum → ENum → ENum
  | .fin a, .fin b => .fin (a / b)
  | _, _ => .nan

/-- JS `Math.abs`; NaN propagates. -/
def abs : ENum → ENum
  | .fin a => .fin |a|
  | .nan => .nan

/-- JS `isNaN`. -/
def isNaNb : ENum → Bool
  | .nan => true
  | .fin _ => false

end ENum

/-! ## Utils.ts -/

/-- `evaluatePoly` (Utils.ts): Horner evaluation of a polynomial given by its
coefficients in ascending order; 0 for an empty coefficient list.  The source
loop starts from the top coefficient `c[n-1]`; over `ℚ` that is identical to
this right fold (the extra step `x * 0 + c[n-1]` is exact). -/
def evaluatePoly : List ℚ → ℚ → ℚ
  | [], _ => 0
  | c :: cs, x => x * evaluatePoly cs x + c

/-- Helper for `trimPoly`: drops leading zeros of the reversed coefficient
list, keeping at least one entry. -/
def trimPolyRev : List ℚ → List ℚ
  | [] => []
  | [a] => [a]
  | a :: rest => if a = 0 then trimPolyRev rest else a :: rest

/-- `trimPoly` (Utils.ts): trims top-order polynomial coefficients which are
zero, but never below one coefficient. -/
def trimPoly (c : List ℚ) : List ℚ :=
  (trimPolyRev c.reverse).reverse

/-- Boolean strict-increase check on a rational list.  This is
`checkStrictlyIncreasing` / `MathArrays_checkOrder` of the source minus the
finiteness test, which is vacuous over `ℚ` (every `ℚ` models a finite
double). -/
def strictlyIncB : List ℚ → Bool
  | [] => true
  | [_] => true
  | a :: b :: t => decide (a < b) && strictlyIncB (b :: t)

/-- Boolean monotone (non-decreasing) check; `checkMonotonicallyIncreasing`
of the source minus the (vacuous) finiteness test. -/
def monotoneIncB : List ℚ → Bool
  | [] => true
  | [_] => true
  | a :: b :: t => decide (a ≤ b) && monotoneIncB (b :: t)

/-- `checkStrictlyIncreasing` (Utils.ts): fails with `InvalidSequence` when
the sequence is not strictly increasing. -/
def checkStrictlyIncreasing (a : List ℚ) : Except Err Unit :=
  if strictlyIncB a then .ok () else .error .invalidSequence

/-- `MathArrays_checkOrder` (CommonsMathInterpolation.ts): same strict-order
test, thrown with a different message; both are modelled as
`invalidSequence`. -/
def MathArrays_checkOrder (a : List ℚ) : Except Err Unit :=
  if strictlyIncB a then .ok () else .error .invalidSequence

/-- `checkMonotonicallyIncreasing` (Utils.ts). -/
def checkMonotonicallyIncreasing (a : List ℚ) : Except Err Unit :=
  if monotoneIncB a then .ok () else .error .invalidSequence

/-- The loop of `binarySearch` (Utils.ts).  `low` starts at 0 and never goes
negative, hence `ℕ`; `high` can reach -1, hence `Int`.  The JS
`(low + high) >>> 1` is floor division by two of nonnegative values.  The
three-way comparison is the JS one on possibly-NaN values; if none of
`<`, `>`, `==` holds, the source throws "Invalid number encountered in
binary search". -/
def binarySearchLoop (a : List ENum) (key : ENum) (low : ℕ) (high : Int) :
    Except Err Int :=
  if _h : (low : Int) ≤ high then
    let mid := (low + high.toNat) / 2
    let midVal := a.getD mid .nan
    if midVal.blt key then binarySearchLoop a key (mid + 1) high
    else if midVal.bgt key then binarySearchLoop a key low ((mid : Int) - 1)
    else if midVal.beq key then .ok (mid : Int)
    else .error .invalidComparison
  else
    .ok (-((low : Int) + 1))
  termination_by (high + 1 - (low : Int)).toNat
  decreasing_by
  · omega
  · omega

/-- `binarySearch` (Utils.ts): index of the key if contained, otherwise
`-(insertionPoint + 1)`; throws on a NaN comparison. -/
def binarySearch (a : List ENum) (key : ENum) : Except Err Int :=
  binarySearchLoop a key 0 ((a.length : Int) - 1)

/-- `getMedian` (Utils.ts): sorts a copy and takes the middle element
(average of the two middle ones for even length); NaN for empty input.
`Float64Array.prototype.sort` sorts numerically ascending with all NaNs
placed at the end, modelled by sorting the finite values and appending the
NaNs. -/
def getMedian (a : List ENum) : ENum :=
  if a.length = 0 then .nan
  else
    let fins := a.filterMap (fun v => match v with | .fin q => some q | .nan => none)
    let sorted : List ENum :=
      (List.insertionSort (· ≤ ·) fins).map .fin ++
        List.replicate (a.length - fins.length) .nan
    let m := a.length / 2
    if a.length % 2 = 0 then
      ((sorted.getD (m - 1) .nan).add (sorted.getD m .nan)).div (.fin 2)
    else sorted.getD m .nan

/-- `evaluatePolySegment` (Utils.ts): locate the segment of `x` by binary
search, clamp the segment index into range, and evaluate that segment's
polynomial at `x - xVals[i]`.  The JS `Math.max(0, Math.min(i, len - 1))`
is `(min i (len - 1)).toNat` (`Int.toNat` clamps negatives to 0).  The
`.nan` branch after a successful search is unreachable whenever `xVals` is
nonempty, which holds for every interpolant the library constructs
(`binarySearch` throws on a NaN key as soon as it probes one element). -/
def evaluatePolySegment (xVals : List ℚ) (segmentCoeffs : List (List ℚ))
    (x : ENum) : Except Err ℚ := do
  let r ← binarySearch (xVals.map ENum.fin) x
  let i : Int := if r < 0 then -r - 2 else r
  let j : ℕ := (min i ((segmentCoeffs.length : Int) - 1)).toNat
  match x with
  | .fin q => pure (evaluatePoly (segmentCoeffs.getD j []) (q - xVals.getD j 0))
  | .nan => pure 0

/-- The type of the returned interpolants (`UniFunction` in the source): a
univariate function that may throw (NaN argument) and may return NaN. -/
def UniFun : Type := ENum → Except Err ENum

/-- The closure over knots and segment coefficients returned by
`createLinearInterpolator`, `createCubicSplineInterpolator` and
`createAkimaSplineInterpolator`.  (The source clones `xVals` at construction
time; in the pure model lists are immutable so cloning is the identity.) -/
def mkPolyInterp (xs : List ℚ) (sc : List (List ℚ)) : UniFun :=
  fun x => (evaluatePolySegment xs sc x).map ENum.fin

/-! ## Linear interpolator (CommonsMathInterpolation.ts) -/

/-- The per-segment coefficient arrays of `computeLinearPolyCoefficients`:
`trimPoly [y_i, (y_{i+1}-y_i)/(x_{i+1}-x_i)]` for each consecutive pair. -/
def linearSegmentCoeffs (xs ys : List ℚ) : List (List ℚ) :=
  (List.range (xs.length - 1)).map fun i =>
    trimPoly [ys.getD i 0, (ys.getD (i + 1) 0 - ys.getD i 0) / (xs.getD (i + 1) 0 - xs.getD i 0)]

/-- `computeLinearPolyCoefficients` (CommonsMathInterpolation.ts). -/
def computeLinearPolyCoefficients (xs ys : List ℚ) : Except Err (List (List ℚ)) :=
  if xs.length ≠ ys.length then .error .dimensionMismatch
  else if xs.length < 2 then .error .tooFewPoints
  else do
    MathArrays_checkOrder xs
    pure (linearSegmentCoeffs xs ys)

/-- `createLinearInterpolator` (CommonsMathInterpolation.ts). -/
def createLinearInterpolator (xs ys : List ℚ) : Except Err UniFun :=
  (computeLinearPolyCoefficients xs ys).map (mkPolyInterp xs)

/-! ## Natural cubic spline (Cubic.ts, appended in Utils.ts) -/

/-- The `h` array of `computeCubicPolyCoefficients`: segment widths. -/
def hv (xs : List ℚ) (i : ℕ) : ℚ :=
  xs.getD (i + 1) 0 - xs.getD i 0

/-- The `mu` array of the tridiagonal forward sweep: `mu[0] = 0` and
`mu[i] = h[i] / g` with `g = 2*(x[i+1]-x[i-1]) - h[i-1]*mu[i-1]`. -/
def muV (xs : List ℚ) : ℕ → ℚ
  | 0 => 0
  | i + 1 =>
    hv xs (i + 1) /
      (2 * (xs.getD (i + 2) 0 - xs.getD i 0) - hv xs i * muV xs i)

/-- The diagonal pivot `g` of loop iteration `i ≥ 1` of the forward sweep. -/
def gV (xs : List ℚ) : ℕ → ℚ
  | 0 => 0
  | i + 1 => 2 * (xs.getD (i + 2) 0 - xs.getD i 0) - hv xs i * muV xs i

/-- The `z` array of the forward sweep: `z[0] = 0` and
`z[i] = (3*(y[i+1]*h[i-1] - y[i]*(x[i+1]-x[i-1]) + y[i-1]*h[i]) /
(h[i-1]*h[i]) - h[i-1]*z[i-1]) / g`. -/
def zV (xs ys : List ℚ) : ℕ → ℚ
  | 0 => 0
  | i + 1 =>
    (3 * (ys.getD (i + 2) 0 * hv xs i -
            ys.getD (i + 1) 0 * (xs.getD (i + 2) 0 - xs.getD i 0) +
            ys.getD i 0 * hv xs (i + 1)) /
        (hv xs i * hv xs (i + 1)) -
      hv xs i * zV xs ys i) / gV xs (i + 1)

/-- The `c` (half second derivative) coefficients, obtained by the backward
substitution `c[n] = 0`, `c[i] = z[i] - mu[i]*c[i+1]`; `n` is the number of
segments. -/
def cV (xs ys : List ℚ) (n : ℕ) (i : ℕ) : ℚ :=
  if _h : i < n then zV xs ys i - muV xs i * cV xs ys n (i + 1) else 0
  termination_by n - i

/-- The `b` (slope) coefficients:
`b[i] = dy/dx - dx*(c[i+1] + 2*c[i])/3`. -/
def bV (xs ys : List ℚ) (n : ℕ) (i : ℕ) : ℚ :=
  (ys.getD (i + 1) 0 - ys.getD i 0) / hv xs i -
    hv xs i * (cV xs ys n (i + 1) + 2 * cV xs ys n i) / 3

/-- The `d` (cubic) coefficients: `d[i] = (c[i+1] - c[i])/(3*dx)`. -/
def dV (xs ys : List ℚ) (n : ℕ) (i : ℕ) : ℚ :=
  (cV xs ys n (i + 1) - cV xs ys n i) / (3 * hv xs i)

/-- The per-segment coefficient arrays `trimPoly [y_i, b_i, c_i, d_i]` of
`computeCubicPolyCoefficients`. -/
def cubicSegmentCoeffs (xs ys : List ℚ) : List (List ℚ) :=
  (List.range (xs.length - 1)).map fun i =>
    trimPoly [ys.getD i 0, bV xs ys (xs.length - 1) i,
      cV xs ys (xs.length - 1) i, dV xs ys (xs.length - 1) i]

/-- `computeCubicPolyCoefficients` (Cubic.ts). -/
def computeCubicPolyCoefficients (xs ys : List ℚ) : Except Err (List (List ℚ)) :=
  if xs.length ≠ ys.length then .error .dimensionMismatch
  else if xs.length < 3 then .error .tooFewPoints
  else do
    checkStrictlyIncreasing xs
    pure (cubicSegmentCoeffs xs ys)

/-- `createCubicSplineInterpolator` (Cubic.ts). -/
def createCubicSplineInterpolator (xs ys : List ℚ) : Except Err UniFun :=
  (computeCubicPolyCoefficients xs ys).map (mkPolyInterp xs)

/-! ## Akima spline (Akima.ts) -/

/-- `Number.EPSILON`, the machine epsilon of 64-bit floats, is exactly
`2^-52`. -/
def EPSILON : ℚ := 1 / 2 ^ 52

/-- The `differences` array: segment slopes
`(y[i+1]-y[i])/(x[i+1]-x[i])`. -/
def akimaDiff (xs ys : List ℚ) (i : ℕ) : ℚ :=
  (ys.getD (i + 1) 0 - ys.getD i 0) / (xs.getD (i + 1) 0 - xs.getD i 0)

/-- The `weights` array: `weights[i] = |differences[i] - differences[i-1]|`
for `i ≥ 1`; index 0 keeps the `Float64Array` initial value 0. -/
def akimaWeight (xs ys : List ℚ) : ℕ → ℚ
  | 0 => 0
  | i + 1 => |akimaDiff xs ys (i + 1) - akimaDiff xs ys i|

/-- `differentiateThreePoint` (Akima.ts): derivative at
`xVals[indexOfDifferentiation]` of the parabola through the three sample
points. -/
def differentiateThreePoint (xs ys : List ℚ)
    (indexOfDifferentiation indexOfFirstSample indexOfSecondsample
      indexOfThirdSample : ℕ) : ℚ :=
  let x0 := ys.getD indexOfFirstSample 0
  let x1 := ys.getD indexOfSecondsample 0
  let x2 := ys.getD indexOfThirdSample 0
  let t := xs.getD indexOfDifferentiation 0 - xs.getD indexOfFirstSample 0
  let t1 := xs.getD indexOfSecondsample 0 - xs.getD indexOfFirstSample 0
  let t2 := xs.getD indexOfThirdSample 0 - xs.getD indexOfFirstSample 0
  let a := (x2 - x0 - t2 / t1 * (x1 - x0)) / (t2 * t2 - t1 * t2)
  let b := (x1 - x0 - a * t1 * t1) / t1
  2 * a * t + b

/-- The `firstDerivatives` array of `computeAkimaPolyCoefficients` (`n` is
the number of segments, so there are `n+1` derivatives).  The source first
fills indices `2 ≤ i ≤ n-2` with the weighted-average formula (falling back
to a distance-weighted average when both neighboring weights are below
`EPSILON`), then assigns the three-point formulas to indices `0`, `1`,
`n-1`, `n`; for `n ≥ 4` these ranges are disjoint, so an if-chain testing
the boundary indices first is equivalent. -/
def akimaFirstDeriv (xs ys : List ℚ) (n : ℕ) (i : ℕ) : ℚ :=
  if i = 0 then differentiateThreePoint xs ys 0 0 1 2
  else if i = 1 then differentiateThreePoint xs ys 1 0 1 2
  else if i = n - 1 then differentiateThreePoint xs ys (n - 1) (n - 2) (n - 1) n
  else if i = n then differentiateThreePoint xs ys n (n - 2) (n - 1) n
  else
    let wP := akimaWeight xs ys (i + 1)
    let wM := akimaWeight xs ys (i - 1)
    if |wP| < EPSILON ∧ |wM| < EPSILON then
      let xv := xs.getD i 0
      let xvP := xs.getD (i + 1) 0
      let xvM := xs.getD (i - 1) 0
      ((xvP - xv) * akimaDiff xs ys (i - 1) + (xv - xvM) * akimaDiff xs ys i) /
        (xvP - xvM)
    else
      (wP * akimaDiff xs ys (i - 1) + wM * akimaDiff xs ys i) / (wP + wM)

/-- The per-segment Hermite coefficient arrays of
`computeHermitePolyCoefficients`. -/
def hermiteSegmentCoeffs (xs ys fd : List ℚ) : List (List ℚ) :=
  (List.range (xs.length - 1)).map fun i =>
    let w := xs.getD (i + 1) 0 - xs.getD i 0
    let w2 := w * w
    let yv := ys.getD i 0
    let yvP := ys.getD (i + 1) 0
    let fdi := fd.getD i 0
    let fdiP := fd.getD (i + 1) 0
    trimPoly [yv, fdi, (3 * (yvP - yv) / w - 2 * fdi - fdiP) / w,
      (2 * (yv - yvP) / w + fdi + fdiP) / w2]

/-- `computeHermitePolyCoefficients` (Akima.ts): the Hermite cubic
coefficient builder shared by the Akima interpolator. -/
def computeHermitePolyCoefficients (xs ys fd : List ℚ) :
    Except Err (List (List ℚ)) :=
  if xs.length ≠ ys.length ∨ xs.length ≠ fd.length then .error .dimensionMismatch
  else if xs.length < 2 then .error .tooFewPoints
  else .ok (hermiteSegmentCoeffs xs ys fd)

/-- `computeAkimaPolyCoefficients` (Akima.ts). -/
def computeAkimaPolyCoefficients (xs ys : List ℚ) : Except Err (List (List ℚ)) :=
  if xs.length ≠ ys.length then .error .dimensionMismatch
  else if xs.length < 5 then .error .tooFewPoints
  else do
    checkStrictlyIncreasing xs
    let n := xs.length - 1
    computeHermitePolyCoefficients xs ys
      ((List.range (n + 1)).map (akimaFirstDeriv xs ys n))

/-- `createAkimaSplineInterpolator` (Akima.ts). -/
def createAkimaSplineInterpolator (xs ys : List ℚ) : Except Err UniFun :=
  (computeAkimaPolyCoefficients xs ys).map (mkPolyInterp xs)

/-! ## Nearest neighbor (NearestNeighbor.ts, appended in Index.ts) -/

/-- The evaluation closure of `createNearestNeighborInterpolator` for
`n ≥ 2` knots.  The `.nan` branch after a successful search is unreachable
(`binarySearch` on the nonempty knot list throws for a NaN key). -/
def nnFun (xs ys : List ℚ) : UniFun := fun x => do
  let r ← binarySearch (xs.map ENum.fin) x
  if r ≥ 0 then pure (.fin (ys.getD r.toNat 0))
  else
    let i : Int := -r - 1
    if i = 0 then pure (.fin (ys.getD 0 0))
    else if i ≥ (xs.length : Int) then pure (.fin (ys.getD (xs.length - 1) 0))
    else
      match x with
      | .fin q =>
        let d := q - xs.getD (i.toNat - 1) 0
        let w := xs.getD i.toNat 0 - xs.getD (i.toNat - 1) 0
        if d + d < w then pure (.fin (ys.getD (i.toNat - 1) 0))
        else pure (.fin (ys.getD i.toNat 0))
      | .nan => pure .nan

/-- `createNearestNeighborInterpolator` (NearestNeighbor.ts): 0 points gives
the constant-NaN function, 1 point the constant function of that y-value,
otherwise the strictly-increasing check followed by the midpoint-rule
closure. -/
def createNearestNeighborInterpolator (xs ys : List ℚ) : Except Err UniFun :=
  if xs.length ≠ ys.length then .error .dimensionMismatch
  else if xs.length = 0 then .ok fun _ => .ok .nan
  else if xs.length = 1 then .ok fun _ => .ok (.fin (ys.getD 0 0))
  else do
    checkStrictlyIncreasing xs
    pure (nnFun xs ys)

/-! ## LOESS (Loess.ts) -/

/-- `triCube` (Loess.ts): `(1 - |x|³)³` for `|x| < 1`, else 0. -/
def triCube (x : ℚ) : ℚ :=
  let absX := |x|
  if absX ≥ 1 then 0
  else
    let tmp := 1 - absX * absX * absX
    tmp * tmp * tmp

/-- `biWeight` (Loess.ts): `(1 - x²)²` for `|x| < 1`, else 0; a NaN input
propagates (in JS `|NaN| ≥ 1` is false and `1 - NaN²` is NaN). -/
def biWeight : ENum → ENum
  | .nan => .nan
  | .fin x =>
    let absX := |x|
    if absX ≥ 1 then .fin 0
    else
      let tmp := 1 - absX * absX
      .fin (tmp * tmp)

/-- Loop of `findNonZero`: first index `≥ i` (and `< n`) whose entry
compares `== 0` as false; note a NaN entry stops the walk (JS `NaN == 0` is
false). -/
def findNonZeroLoop (a : List ENum) (n : ℕ) (i : ℕ) : ℕ :=
  if _h : i < n ∧ (a.getD i .nan).beq (.fin 0) then findNonZeroLoop a n (i + 1)
  else i
  termination_by n - i

/-- `findNonZero` (Loess.ts). -/
def findNonZero : Option (List ENum) → ℕ → ℕ
  | none, startPos => startPos
  | some a, startPos => findNonZeroLoop a a.length startPos

theorem findNonZeroLoop_ge (a : List ENum) (n : ℕ) (i : ℕ) :
    i ≤ findNonZeroLoop a n i := by
  rw [findNonZeroLoop]
  split
  · have := findNonZeroLoop_ge a n (i + 1)
    omega
  · exact le_refl i
  termination_by n - i

theorem findNonZero_ge (w : Option (List ENum)) (startPos : ℕ) :
    startPos ≤ findNonZero w startPos := by
  cases w with
  | none => exact le_refl startPos
  | some a => exact findNonZeroLoop_ge a a.length startPos

/-- `countNonZeros` (Loess.ts): JS `a[i] != 0`, which is also true for
NaN entries. -/
def countNonZeros (a : List ENum) : ℕ :=
  a.countP fun v => !(v.beq (.fin 0))

/-- `absDiff` (Loess.ts): elementwise `|a1[i] - a2[i]|` (the second array is
the validated, hence finite, `yVals`). -/
def absDiff (a1 : List ENum) (a2 : List ℚ) : List ENum :=
  (a1.zip a2).map fun p => (p.1.sub (.fin p.2)).abs

/-- `calculateRobustnessWeights` (Loess.ts). -/
def calculateRobustnessWeights (residuals : List ENum) (outlierDistance : ENum) :
    List ENum :=
  residuals.map fun r => biWeight (r.div outlierDistance)

/-- `combineWeights` (Loess.ts): `w1 ?? w2` when either is absent, else the
elementwise product.  Caller weights are validated finite (`List ℚ`),
robustness weights may be NaN. -/
def combineWeights (w1 : Option (List ℚ)) (w2 : Option (List ENum)) :
    Option (List ENum) :=
  match w1, w2 with
  | none, none => none
  | some a, none => some (a.map .fin)
  | none, some b => some b
  | some a, some b => some ((a.zip b).map fun p => (ENum.fin p.1).mul p.2)

/-- Body of the summation loop of `calculateLocalLinearRegression`
(Loess.ts): the accumulator is `(sumWeights, sumX, sumXSquared, sumY,
sumXY)`. -/
def locRegStep (xs ys : List ℚ) (weights : Option (List ENum))
    (x maxDist : ℚ) (s : ENum × ENum × ENum × ENum × ENum) (k : ℕ) :
    ENum × ENum × ENum × ENum × ENum :=
  let xk := xs.getD k 0
  let yk := ys.getD k 0
  let dist := |xk - x|
  let w1 : ENum := match weights with
    | some w => w.getD k (.fin 0)
    | none => .fin 1
  let w2 := triCube (dist / maxDist)
  let w := w1.mul (.fin w2)
  let xkw := (ENum.fin xk).mul w
  (s.1.add w, s.2.1.add xkw, s.2.2.1.add ((ENum.fin xk).mul xkw),
    s.2.2.2.1.add ((ENum.fin yk).mul w), s.2.2.2.2.add ((ENum.fin yk).mul xkw))

/-- `calculateLocalLinearRegression` (Loess.ts): tri-cube- and
caller-weighted least-squares linear fit at `x` over the window
`iLeft .. iRight`; NaN when the total weight is below `1e-12`. -/
def calculateLocalLinearRegression (xs ys : List ℚ)
    (weights : Option (List ENum)) (x : ℚ) (iLeft iRight : ℕ)
    (accuracy : ℚ) : Except Err ENum :=
  let maxDist0 := max (x - xs.getD iLeft 0) (xs.getD iRight 0 - x) * (1001 / 1000)
  if maxDist0 < 0 then .error .inconsistentBandwidth
  else
    let maxDist := if maxDist0 = 0 then 1 else maxDist0
    let s := (List.range' iLeft (iRight + 1 - iLeft)).foldl
      (locRegStep xs ys weights x maxDist)
      (.fin 0, .fin 0, .fin 0, .fin 0, .fin 0)
    let sumWeights := s.1
    if sumWeights.blt (.fin (1 / 10 ^ 12)) then .ok .nan
    else
      let meanX := s.2.1.div sumWeights
      let meanY := s.2.2.2.1.div sumWeights
      let meanXY := s.2.2.2.2.div sumWeights
      let meanXSquared := s.2.2.1.div sumWeights
      let meanXSqrDiff := meanXSquared.sub (meanX.mul meanX)
      let beta :=
        if (meanXSqrDiff.abs).blt (.fin (accuracy ^ 2)) then ENum.fin 0
        else (meanXY.sub (meanX.mul meanY)).div meanXSqrDiff
      .ok ((meanY.add (beta.mul (.fin x))).sub (beta.mul meanX))

/-- Spec-side helper: the claim's per-point weight, caller weight times
`triCube(distance / maxDist)`. -/
def locRegWeight (xs ws : List ℚ) (x maxDist : ℚ) (k : ℕ) : ℚ :=
  ws.getD k 0 * triCube (|xs.getD k 0 - x| / maxDist)

/-- Spec-side local regression, following the claim's words: weighted means
of x, y, x², xy over the window with weights `callerWeight ·
triCube(distance / maxDist)` where `maxDist = 1.001 ·
max(x - xVals[iLeft], xVals[iRight] - x)`; slope `beta = (meanXY -
meanX·meanY) / (meanXX - meanX²)` unless the denominator's magnitude is
below `accuracy²` (then 0); result `meanY + beta·(x - meanX)`, or NaN when
the total weight is below `1e-12`. -/
def localRegressionSpec (xs ys ws : List ℚ) (x : ℚ) (iLeft iRight : ℕ)
    (accuracy : ℚ) : ENum :=
  let maxDist := max (x - xs.getD iLeft 0) (xs.getD iRight 0 - x) * (1001 / 1000)
  let ks := List.range' iLeft (iRight + 1 - iLeft)
  let sumW := (ks.map (locRegWeight xs ws x maxDist)).sum
  if sumW < 1 / 10 ^ 12 then .nan
  else
    let meanX := (ks.map fun k =>
      xs.getD k 0 * locRegWeight xs ws x maxDist k).sum / sumW
    let meanY := (ks.map fun k =>
      ys.getD k 0 * locRegWeight xs ws x maxDist k).sum / sumW
    let meanXY := (ks.map fun k =>
      ys.getD k 0 * (xs.getD k 0 * locRegWeight xs ws x maxDist k)).sum / sumW
    let meanXSquared := (ks.map fun k =>
      xs.getD k 0 * (xs.getD k 0 * locRegWeight xs ws x maxDist k)).sum / sumW
    let beta :=
      if |meanXSquared - meanX * meanX| < accuracy ^ 2 then 0
      else (meanXY - meanX * meanY) / (meanXSquared - meanX * meanX)
    .fin (meanY + beta * (x - meanX))

/-- `moveBandwidthInterval` (Loess.ts): slide the window right while the
next nonzero-weight candidate on the right is strictly closer to `x` than
the current left edge. -/
def moveBandwidthInterval (xs : List ℚ) (w : Option (List ENum)) (x : ℚ)
    (iLeft iRight : ℕ) : ℕ × ℕ :=
  let n := xs.length
  let nextRight := findNonZero w (iRight + 1)
  if _h : nextRight ≥ n ∨ xs.getD nextRight 0 - x ≥ x - xs.getD iLeft 0 then
    (iLeft, iRight)
  else
    moveBandwidthInterval xs w x (findNonZero w (iLeft + 1)) nextRight
  termination_by xs.length - iRight
  decreasing_by
    have h1 : iRight + 1 ≤ findNonZero w (iRight + 1) := findNonZero_ge w (iRight + 1)
    have _h2 : findNonZero w (iRight + 1) < xs.length := by
      by_contra hcon
      exact _h (Or.inl (le_of_not_lt hcon))
    omega

/-- Loop of `findInitialBandwidthInterval` advancing `iRight` through
`bandwidthInPoints - 1` further nonzero-weight points. -/
def fibLoop (w : Option (List ENum)) (n : ℕ) : ℕ → ℕ → Except Err ℕ
  | 0, iRight => .ok iRight
  | k + 1, iRight =>
    let nr := findNonZero w (iRight + 1)
    if nr ≥ n then .error .bandwidthNotFound else fibLoop w n k nr

/-- `findInitialBandwidthInterval` (Loess.ts). -/
def findInitialBandwidthInterval (w : Option (List ENum))
    (bandwidthInPoints n : ℕ) : Except Err (ℕ × ℕ) :=
  let iLeft := findNonZero w 0
  if iLeft ≥ n then .error .bandwidthNotFound
  else (fibLoop w n (bandwidthInPoints - 1) iLeft).map fun r => (iLeft, r)

/-- JS `Math.round`: `⌊q + 1/2⌋`, computed with floor division. -/
def roundJS (q : ℚ) : ℤ :=
  Int.fdiv (q + 1 / 2).num ((q + 1 / 2).den : ℤ)

/-- The per-point loop of `calculateSequenceRegression`, threading the
sliding bandwidth interval through the points in ascending order. -/
def seqRegPoints (xs ys : List ℚ) (w : Option (List ENum)) (accuracy : ℚ) :
    List ℕ → ℕ × ℕ → Except Err (List ENum)
  | [], _ => .ok []
  | i :: rest, bw => do
    let x := xs.getD i 0
    let bw2 := moveBandwidthInterval xs w x bw.1 bw.2
    let v ← calculateLocalLinearRegression xs ys w x bw2.1 bw2.2 accuracy
    let vs ← seqRegPoints xs ys w accuracy rest bw2
    pure (v :: vs)

/-- `calculateSequenceRegression` (Loess.ts).  The iteration number only
feeds the error message in the source, so it is unused here. -/
def calculateSequenceRegression (xs ys : List ℚ) (weights : Option (List ENum))
    (bandwidthFraction accuracy : ℚ) (_iter : ℕ) : Except Err (List ENum) :=
  let n := xs.length
  let n2 := match weights with
    | some w => countNonZeros w
    | none => n
  if n2 < 2 then .error .insufficientPoints
  else do
    let bandwidthInPoints : ℕ :=
      max 2 (min n2 (roundJS ((n2 : ℚ) * bandwidthFraction)).toNat)
    let bw ← findInitialBandwidthInterval weights bandwidthInPoints n
    seqRegPoints xs ys weights accuracy (List.range n) bw

/-- Parameters of `smooth` with the source's default values.  The optional
write-only `diagInfo` output is omitted: it has no effect on computed
results. -/
structure SmoothParms where
  xVals : List ℚ
  yVals : List ℚ
  weights : Option (List ℚ) := none
  bandwidthFraction : ℚ := 3 / 10
  robustnessIters : ℕ := 2
  accuracy : ℚ := 1 / 10 ^ 12
  outlierDistanceFactor : ℚ := 6

/-- The robustness iterations (`iter ≥ 1`) of `smooth`: stop early when the
median residual is below `accuracy`, otherwise derive robustness weights
from the residuals and refit. -/
def smoothIter (xs ys : List ℚ) (weights : Option (List ℚ))
    (bwF accuracy odf : ℚ) : ℕ → ℕ → List ENum → Except Err (List ENum)
  | 0, _, fit => .ok fit
  | rem + 1, iter, fit =>
    let residuals := absDiff fit ys
    let medianResidual := getMedian residuals
    if medianResidual.blt (.fin accuracy) then .ok fit
    else
      let outlierDistance := medianResidual.mul (.fin odf)
      let robustnessWeights := calculateRobustnessWeights residuals outlierDistance
      let combined := combineWeights weights (some robustnessWeights)
      do
        let fit2 ← calculateSequenceRegression xs ys combined bwF accuracy iter
        smoothIter xs ys weights bwF accuracy odf rem (iter + 1) fit2

/-- `smooth` (Loess.ts).  The `checkFinite` calls on `yVals` and `weights`
are vacuous over `ℚ`.  Iteration 0 fits with the caller weights only
(`combineWeights weights none`); iterations `1 .. robustnessIters` run
`smoothIter`. -/
def smooth (parms : SmoothParms) : Except Err (List ENum) :=
  let n := parms.xVals.length
  let wLenOk : Bool := match parms.weights with
    | some w => decide (w.length = n)
    | none => true
  do
    checkMonotonicallyIncreasing parms.xVals
    if parms.yVals.length ≠ n ∨ wLenOk = false then .error .dimensionMismatch
    else if n ≤ 2 then pure (parms.yVals.map .fin)
    else do
      let fit0 ← calculateSequenceRegression parms.xVals parms.yVals
        (combineWeights parms.weights none) parms.bandwidthFraction
        parms.accuracy 0
      smoothIter parms.xVals parms.yVals parms.weights parms.bandwidthFraction
        parms.accuracy parms.outlierDistanceFactor parms.robustnessIters 1 fit0

/-- `getDefaultMinXDistance` (Loess.ts): NaN for no points, 1 for zero
x-range, else the x-range divided by 100. -/
def getDefaultMinXDistance (xs : List ℚ) : ENum :=
  if xs.length = 0 then .nan
  else
    let xRange := xs.getD (xs.length - 1) 0 - xs.getD 0 0
    if xRange = 0 then .fin 1 else .fin (xRange / 100)

/-- The loop of `createKnotFilter`.  `prevX` starts at `-Infinity`
(modelled by `none`): `x - (-Infinity) = +Infinity` and `Infinity ≥ d` is
true for every finite `d` and false for a NaN `d`. -/
def knotFilterLoop (minXD : ENum) : List (ℚ × ENum) → Option ℚ → List Bool
  | [], _ => []
  | (x, y) :: rest, prevX =>
    let distOk : Bool := match minXD, prevX with
      | .nan, _ => false
      | .fin _, none => true
      | .fin d, some p => decide (x - p ≥ d)
    if distOk && !y.isNaNb then true :: knotFilterLoop minXD rest (some x)
    else false :: knotFilterLoop minXD rest prevX

/-- `createKnotFilter` (Loess.ts): keep a point when its x-distance to the
previously kept point is at least `minXDistance` and its fitted y is not
NaN. -/
def createKnotFilter (xs : List ℚ) (fitYVals : List ENum) (minXDistance : ENum) :
    List Bool :=
  knotFilterLoop minXDistance (xs.zip fitYVals) none

/-- `filterNumberArray` (Loess.ts). -/
def filterNumberArray {α : Type} (a : List α) (filter : List Bool) : List α :=
  (a.zip filter).filterMap fun p => if p.2 then some p.1 else none

/-! ## Dispatcher (Index.ts) -/

/-- `InterpolationMethod` (Index.ts); a closed union of method names.  (The
`default: throw UnknownMethod` branch of the source is unreachable for this
closed type.) -/
inductive Method where
  | akima
  | cubic
  | linear
  | nearestNeighbor
  | loess
  deriving DecidableEq, Repr

/-- Parameters of `createLoessInterpolator`: `smooth`'s parameters plus the
interpolation method (default akima) and the minimum knot x-distance
(default from `getDefaultMinXDistance`). -/
structure LoessInterpolatorParms extends SmoothParms where
  interpolationMethod : Option Method := none
  minXDistance : Option ℚ := none

/-- Termination measure for the dispatcher recursion
(`createInterpolator "loess"` runs LOESS, which delegates its thinned knots
back to `createInterpolatorWithFallback` with a non-loess method). -/
def methodRank : Method → ℕ
  | .loess => 3
  | .akima => 2
  | .cubic => 1
  | .linear => 0
  | .nearestNeighbor => 0

/-- The method-degradation of `createInterpolatorWithFallback`: the two
successive reassignments of `method` (akima→cubic below 5 points,
cubic→linear below 3 points), as a function of the method and the point
count. -/
def fallbackMethod (m : Method) (n : ℕ) : Method :=
  let m1 := if n < 5 ∧ m = .akima then Method.cubic else m
  if n < 3 ∧ m1 = .cubic then Method.linear else m1

theorem methodRank_fallbackMethod_le (m : Method) (n : ℕ) :
    methodRank (fallbackMethod m n) ≤ methodRank m := by
  cases m <;> simp only [fallbackMethod, methodRank] <;> split_ifs <;>
    simp_all [methodRank]

mutual

/-- `createInterpolator` (Index.ts). -/
def createInterpolator (m : Method) (xs ys : List ℚ) : Except Err UniFun :=
  match m with
  | .akima => createAkimaSplineInterpolator xs ys
  | .cubic => createCubicSplineInterpolator xs ys
  | .linear => createLinearInterpolator xs ys
  | .nearestNeighbor => createNearestNeighborInterpolator xs ys
  | .loess => createLoessInterpolator { xVals := xs, yVals := ys }
  termination_by methodRank m * 3
  decreasing_by
    simp [methodRank]

/-- `createInterpolatorWithFallback` (Index.ts): degrade akima to cubic
below 5 points and cubic to linear below 3 points; below 2 points return
the constant function of the single y-value (0 for an empty dataset). -/
def createInterpolatorWithFallback (m : Method) (xs ys : List ℚ) :
    Except Err UniFun :=
  let n := xs.length
  if n < 2 then .ok fun _ => .ok (.fin (if n = 1 then ys.getD 0 0 else 0))
  else createInterpolator (fallbackMethod m n) xs ys
  termination_by methodRank m * 3 + 1
  decreasing_by
    have := methodRank_fallbackMethod_le m xs.length
    omega

/-- `createLoessInterpolator` (Loess.ts): smooth, thin the knots, and
delegate to the fallback dispatcher.  The kept fitted values are non-NaN by
construction of the knot filter, so extracting their finite values with
`filterMap` is exact. -/
def createLoessInterpolator (parms : LoessInterpolatorParms) : Except Err UniFun :=
  let method := parms.interpolationMethod.getD .akima
  let minXD : ENum := match parms.minXDistance with
    | some d => .fin d
    | none => getDefaultMinXDistance parms.xVals
  do
    let fitYVals ← smooth parms.toSmoothParms
    let knotFilter := createKnotFilter parms.xVals fitYVals minXD
    let knotXVals := filterNumberArray parms.xVals knotFilter
    let knotYVals := (filterNumberArray fitYVals knotFilter).filterMap
      fun v => match v with
        | .fin q => some q
        | .nan => none
    createInterpolatorWithFallback method knotXVals knotYVals
  termination_by methodRank (parms.interpolationMethod.getD .akima) * 3 + 2
  decreasing_by
    omega

end

/-! ## Generic lemmas: polynomial evaluation, trimming, formal derivative -/

/-- The formal-derivative helper: entrywise `k * a_j` with `k` counting up,
applied to the coefficients above degree 0. -/
def polyDerivFrom (k : ℚ) : List ℚ → List ℚ
  | [] => []
  | a :: as => k * a :: polyDerivFrom (k + 1) as

/-- Formal derivative of a coefficient list (ascending order):
`[c1, 2*c2, 3*c3, ...]`.  For the polynomial functions at hand this is the
analytic derivative. -/
def polyDeriv : List ℚ → List ℚ
  | [] => []
  | _ :: as => polyDerivFrom 1 as

theorem evaluatePoly_nil (x : ℚ) : evaluatePoly [] x = 0 := rfl

theorem evaluatePoly_cons (c : ℚ) (cs : List ℚ) (x : ℚ) :
    evaluatePoly (c :: cs) x = x * evaluatePoly cs x + c := rfl

theorem evaluatePoly_append_zero (c : List ℚ) (x : ℚ) :
    evaluatePoly (c ++ [0]) x = evaluatePoly c x := by
  induction c with
  | nil => simp [evaluatePoly]
  | cons a t ih => simp [evaluatePoly, ih]

theorem evaluatePoly_append_replicate_zero (c : List ℚ) (k : ℕ) (x : ℚ) :
    evaluatePoly (c ++ List.replicate k 0) x = evaluatePoly c x := by
  induction k generalizing c with
  | zero => simp
  | succ m ih =>
    have : c ++ List.replicate (m + 1) 0 = (c ++ [0]) ++ List.replicate m 0 := by
      simp [List.replicate_succ]
    rw [this, ih, evaluatePoly_append_zero]

theorem trimPoly_append (c : List ℚ) (a : ℚ) :
    trimPoly (c ++ [a]) =
      if a = 0 ∧ c ≠ [] then trimPoly c else c ++ [a] := by
  unfold trimPoly
  rw [List.reverse_append, List.reverse_singleton, List.singleton_append]
  cases c with
  | nil => simp [trimPolyRev]
  | cons b t =>
    have hne : (b :: t).reverse ≠ [] := by simp
    obtain ⟨u, v, huv⟩ : ∃ u v, (b :: t).reverse = u :: v := by
      cases hrev : (b :: t).reverse with
      | nil => exact absurd hrev hne
      | cons u v => exact ⟨u, v, rfl⟩
    by_cases ha : a = 0
    · rw [huv, show trimPolyRev (a :: u :: v) = trimPolyRev (u :: v) by
        simp [trimPolyRev, ha]]
      rw [← huv]
      simp [ha]
    · rw [huv, show trimPolyRev (a :: u :: v) = a :: u :: v by
        simp [trimPolyRev, ha]]
      rw [← huv]
      simp [ha]

theorem exists_trimPoly_append (c : List ℚ) :
    ∃ k, c = trimPoly c ++ List.replicate k 0 := by
  induction c using List.reverseRecOn with
  | nil => exact ⟨0, by simp [trimPoly, trimPolyRev]⟩
  | append_singleton t a ih =>
    rw [trimPoly_append]
    by_cases ha : a = 0 ∧ t ≠ []
    · obtain ⟨k, hk⟩ := ih
      refine ⟨k + 1, ?_⟩
      rw [if_pos ha, ha.1]
      conv_lhs => rw [hk]
      simp [List.replicate_succ', List.append_assoc]
    · exact ⟨0, by simp [ha]⟩

theorem evaluatePoly_trimPoly (c : List ℚ) (x : ℚ) :
    evaluatePoly (trimPoly c) x = evaluatePoly c x := by
  obtain ⟨k, hk⟩ := exists_trimPoly_append c
  conv_rhs => rw [hk]
  rw [evaluatePoly_append_replicate_zero]

theorem polyDerivFrom_replicate_zero (k : ℚ) (m : ℕ) :
    polyDerivFrom k (List.replicate m 0) = List.replicate m 0 := by
  induction m generalizing k with
  | zero => rfl
  | succ m ih => simp [List.replicate_succ, polyDerivFrom, ih]

theorem polyDerivFrom_append (k : ℚ) (c d : List ℚ) :
    polyDerivFrom k (c ++ d) =
      polyDerivFrom k c ++ polyDerivFrom (k + c.length) d := by
  induction c generalizing k with
  | nil => simp [polyDerivFrom]
  | cons a t ih =>
    rw [List.cons_append, polyDerivFrom, polyDerivFrom, ih (k + 1), List.cons_append]
    have harg : k + 1 + (t.length : ℚ) = k + ((a :: t).length : ℚ) := by
      simp only [List.length_cons]
      push_cast
      ring
    rw [harg]

theorem polyDeriv_append_replicate (u : List ℚ) (k : ℕ) :
    ∃ m, polyDeriv (u ++ List.replicate k 0) = polyDeriv u ++ List.replicate m 0 := by
  cases u with
  | nil =>
    cases k with
    | zero => exact ⟨0, rfl⟩
    | succ m =>
      refine ⟨m, ?_⟩
      simp [List.replicate_succ, polyDeriv, polyDerivFrom_replicate_zero]
  | cons b t =>
    refine ⟨k, ?_⟩
    simp [polyDeriv, polyDerivFrom_append, polyDerivFrom_replicate_zero]

theorem evaluatePoly_polyDeriv_trimPoly (c : List ℚ) (x : ℚ) :
    evaluatePoly (polyDeriv (trimPoly c)) x = evaluatePoly (polyDeriv c) x := by
  obtain ⟨k, hk⟩ := exists_trimPoly_append c
  obtain ⟨m, hm⟩ := polyDeriv_append_replicate (trimPoly c) k
  conv_rhs => rw [hk]
  rw [hm, evaluatePoly_append_replicate_zero]

theorem evaluatePoly_polyDeriv2_trimPoly (c : List ℚ) (x : ℚ) :
    evaluatePoly (polyDeriv (polyDeriv (trimPoly c))) x =
      evaluatePoly (polyDeriv (polyDeriv c)) x := by
  obtain ⟨k, hk⟩ := exists_trimPoly_append c
  obtain ⟨m, hm⟩ := polyDeriv_append_replicate (trimPoly c) k
  obtain ⟨m2, hm2⟩ := polyDeriv_append_replicate (polyDeriv (trimPoly c)) m
  conv_rhs => rw [hk]
  rw [hm, hm2, evaluatePoly_append_replicate_zero]

theorem evaluatePoly_quartet (a b c d t : ℚ) :
    evaluatePoly [a, b, c, d] t = a + b * t + c * t ^ 2 + d * t ^ 3 := by
  simp [evaluatePoly]
  ring

theorem evaluatePoly_polyDeriv_quartet (a b c d t : ℚ) :
    evaluatePoly (polyDeriv [a, b, c, d]) t = b + 2 * c * t + 3 * d * t ^ 2 := by
  simp [polyDeriv, polyDerivFrom, evaluatePoly]
  ring

theorem evaluatePoly_polyDeriv2_quartet (a b c d t : ℚ) :
    evaluatePoly (polyDeriv (polyDeriv [a, b, c, d])) t = 2 * c + 6 * d * t := by
  simp [polyDeriv, polyDerivFrom, evaluatePoly]
  ring

/-! ## Generic lemmas: order checks and sorted access -/

theorem strictlyIncB_iff : ∀ l : List ℚ, strictlyIncB l = true ↔ l.Chain' (· < ·)
  | [] => by simp [strictlyIncB]
  | [a] => by simp [strictlyIncB]
  | a :: b :: t => by
    rw [strictlyIncB, List.chain'_cons, Bool.and_eq_true, decide_eq_true_iff,
      strictlyIncB_iff (b :: t)]

theorem monotoneIncB_iff : ∀ l : List ℚ, monotoneIncB l = true ↔ l.Chain' (· ≤ ·)
  | [] => by simp [monotoneIncB]
  | [a] => by simp [monotoneIncB]
  | a :: b :: t => by
    rw [monotoneIncB, List.chain'_cons, Bool.and_eq_true, decide_eq_true_iff,
      monotoneIncB_iff (b :: t)]

theorem getD_map_fin (l : List ℚ) (i : ℕ) (h : i < l.length) (d : ENum) :
    (l.map ENum.fin).getD i d = .fin (l.getD i 0) := by
  rw [List.getD_eq_getElem?_getD, List.getD_eq_getElem?_getD, List.getElem?_map]
  simp [List.getElem?_eq_getElem h]

theorem getD_lt_getD_of_chain_lt {l : List ℚ} (hs : l.Chain' (· < ·))
    {i j : ℕ} (hij : i < j) (hj : j < l.length) :
    l.getD i 0 < l.getD j 0 := by
  have hp : l.Pairwise (· < ·) := List.chain'_iff_pairwise.mp hs
  have hi : i < l.length := lt_trans hij hj
  have hg := (List.pairwise_iff_get.mp hp) ⟨i, hi⟩ ⟨j, hj⟩ hij
  simp only [List.get_eq_getElem] at hg
  rw [List.getD_eq_getElem l 0 hi, List.getD_eq_getElem l 0 hj]
  exact hg

theorem getD_le_getD_of_chain_le {l : List ℚ} (hs : l.Chain' (· ≤ ·))
    {i j : ℕ} (hij : i ≤ j) (hj : j < l.length) :
    l.getD i 0 ≤ l.getD j 0 := by
  rcases eq_or_lt_of_le hij with heq | hlt
  · rw [heq]
  · have hp : l.Pairwise (· ≤ ·) := List.chain'_iff_pairwise.mp hs
    have hi : i < l.length := lt_trans hlt hj
    have hg := (List.pairwise_iff_get.mp hp) ⟨i, hi⟩ ⟨j, hj⟩ hlt
    simp only [List.get_eq_getElem] at hg
    rw [List.getD_eq_getElem l 0 hi, List.getD_eq_getElem l 0 hj]
    exact hg

theorem blt_fin_fin (a b : ℚ) : (ENum.fin a).blt (.fin b) = decide (a < b) := rfl

theorem bgt_fin_fin (a b : ℚ) : (ENum.fin a).bgt (.fin b) = decide (b < a) := rfl

theorem beq_fin_fin (a b : ℚ) : (ENum.fin a).beq (.fin b) = decide (a = b) := rfl

theorem blt_nan_right (v : ENum) : v.blt .nan = false := by cases v <;> rfl

theorem bgt_nan_right (v : ENum) : v.bgt .nan = false := by cases v <;> rfl

theorem beq_nan_right (v : ENum) : v.beq .nan = false := by cases v <;> rfl

theorem countP_eq_of_split (p : ℚ → Bool) :
    ∀ (l : List ℚ) (k : ℕ), k ≤ l.length →
      (∀ j, j < k → p (l.getD j 0) = true) →
      (∀ j, k ≤ j → j < l.length → p (l.getD j 0) = false) →
      l.countP p = k
  | [], k, hk, _, _ => by simp_all
  | a :: t, 0, _, _, h2 => by
    rw [List.countP_cons_of_neg _ _ (by simpa using h2 0 (le_refl 0) (by simp))]
    exact countP_eq_of_split p t 0 (Nat.zero_le _) (by omega)
      (fun j _ hj => by simpa using h2 (j + 1) (by omega) (by simpa using hj))
  | a :: t, k + 1, hk, h1, h2 => by
    rw [List.countP_cons_of_pos _ _ (by simpa using h1 0 (by omega))]
    rw [countP_eq_of_split p t k (by simpa using hk)
      (fun j hj => by simpa using h1 (j + 1) (by omega))
      (fun j hj hjl => by simpa using h2 (j + 1) (by omega) (by simpa using hjl))]

/-! ## Correctness of `binarySearch` on sorted lists -/

/-- Loop invariant proof for `binarySearchLoop` over a sorted (`≤`) list of
finite values: everything left of `low` is `< key`, everything right of
`high` is `> key`; then the loop returns the encoded insertion point when
the key is absent, and the index of an occurrence when present. -/
theorem binarySearchLoop_spec (l : List ℚ) (key : ℚ) (hs : l.Chain' (· ≤ ·))
    (low : ℕ) (high : Int) (hle : (low : Int) ≤ high + 1)
    (hhigh : high < (l.length : Int))
    (hlo : ∀ j : ℕ, j < low → l.getD j 0 < key)
    (hhi : ∀ j : ℕ, j < l.length → high < (j : Int) → key < l.getD j 0) :
    (key ∉ l → binarySearchLoop (l.map .fin) (.fin key) low high =
        .ok (-((l.countP fun v => decide (v < key)) + 1 : Int))) ∧
    (key ∈ l → ∃ r : ℕ,
        binarySearchLoop (l.map .fin) (.fin key) low high = .ok (r : Int) ∧
        r < l.length ∧ l.getD r 0 = key) := by
  by_cases h : (low : Int) ≤ high
  case pos =>
    have hmid_ge : low ≤ (low + high.toNat) / 2 := by omega
    have hmid_le : (((low + high.toNat) / 2 : ℕ) : Int) ≤ high := by omega
    have hmidlen : (low + high.toNat) / 2 < l.length := by omega
    rw [binarySearchLoop, dif_pos h]
    simp only [List.length_map, getD_map_fin l _ hmidlen, blt_fin_fin, bgt_fin_fin,
      beq_fin_fin]
    rcases lt_trichotomy (l.getD ((low + high.toNat) / 2) 0) key with hlt | heq | hgt
    · rw [if_pos (by simpa using hlt)]
      exact binarySearchLoop_spec l key hs ((low + high.toNat) / 2 + 1) high
        (by omega) hhigh
        (fun j hj =>
          lt_of_le_of_lt
            (getD_le_getD_of_chain_le hs
              (show j ≤ (low + high.toNat) / 2 by omega) hmidlen) hlt)
        hhi
    · rw [if_neg (by simpa only [decide_eq_true_eq] using not_lt.mpr (le_of_eq heq.symm)),
        if_neg (by simpa only [decide_eq_true_eq] using not_lt.mpr (le_of_eq heq)),
        if_pos (by simpa only [decide_eq_true_eq] using heq)]
      have hm : key ∈ l := by
        rw [← heq, List.getD_eq_getElem l 0 hmidlen]
        exact List.getElem_mem hmidlen
      exact ⟨fun hnm => absurd hm hnm,
        fun _ => ⟨(low + high.toNat) / 2, rfl, hmidlen, heq⟩⟩
    · rw [if_neg (by simpa only [decide_eq_true_eq] using not_lt.mpr (le_of_lt hgt)),
        if_pos (by simpa only [decide_eq_true_eq] using hgt)]
      exact binarySearchLoop_spec l key hs low ((((low + high.toNat) / 2 : ℕ) : Int) - 1)
        (by omega) (by omega) hlo
        (fun j hjlen hjgt =>
          lt_of_lt_of_le hgt
            (getD_le_getD_of_chain_le hs
              (show (low + high.toNat) / 2 ≤ j by omega) hjlen))
  case neg =>
    rw [binarySearchLoop, dif_neg h]
    have hcnt : (l.countP fun v => decide (v < key)) = low :=
      countP_eq_of_split _ l low (by omega)
        (fun j hj => by simpa using hlo j hj)
        (fun j hj1 hj2 => by
          simpa using not_lt.mpr (le_of_lt (hhi j hj2 (by omega))))
    constructor
    · intro _
      rw [hcnt]
    · intro hm
      exfalso
      obtain ⟨i, hilen, hieq⟩ := List.mem_iff_getElem.mp hm
      have hid : l.getD i 0 = key := by rw [List.getD_eq_getElem l 0 hilen]; exact hieq
      rcases lt_or_ge i low with hi | hi
      · exact absurd hid (ne_of_lt (hlo i hi))
      · exact absurd hid.symm (ne_of_lt (hhi i hilen (by omega)))
  termination_by (high + 1 - (low : Int)).toNat
  decreasing_by
  · omega
  · omega

/-- `binarySearch` on a sorted list of finite values, when the key is
absent, returns `-(c + 1)` where `c` counts the elements below the key. -/
theorem binarySearch_not_mem (l : List ℚ) (key : ℚ) (hs : l.Chain' (· ≤ ·))
    (hnm : key ∉ l) :
    binarySearch (l.map .fin) (.fin key) =
      .ok (-((l.countP fun v => decide (v < key)) + 1 : Int)) := by
  have hspec := binarySearchLoop_spec l key hs 0 ((l.length : Int) - 1)
    (by omega) (by omega) (by omega) (fun j hj hj2 => by omega)
  rw [binarySearch, List.length_map]
  exact hspec.1 hnm

/-- `binarySearch` on a sorted list of finite values, when the key occurs,
returns the index of an occurrence. -/
theorem binarySearch_mem (l : List ℚ) (key : ℚ) (hs : l.Chain' (· ≤ ·))
    (hm : key ∈ l) :
    ∃ r : ℕ, binarySearch (l.map .fin) (.fin key) = .ok (r : Int) ∧
      r < l.length ∧ l.getD r 0 = key := by
  have hspec := binarySearchLoop_spec l key hs 0 ((l.length : Int) - 1)
    (by omega) (by omega) (by omega) (fun j hj hj2 => by omega)
  rw [binarySearch, List.length_map]
  exact hspec.2 hm

/-- On a strictly increasing list the index found by `binarySearch` is the
(unique) index of the key. -/
theorem binarySearch_strict_at (l : List ℚ) (key : ℚ) (hs : l.Chain' (· < ·))
    (i : ℕ) (hi : i < l.length) (heq : l.getD i 0 = key) :
    binarySearch (l.map .fin) (.fin key) = .ok (i : Int) := by
  have hm : key ∈ l := by
    rw [← heq, List.getD_eq_getElem l 0 hi]
    exact List.getElem_mem hi
  obtain ⟨r, hr, hrlen, hrq⟩ :=
    binarySearch_mem l key (hs.imp fun a b hab => le_of_lt hab) hm
  have : r = i := by
    rcases lt_trichotomy r i with hri | hri | hri
    · exact absurd (hrq.trans heq.symm) (ne_of_lt (getD_lt_getD_of_chain_lt hs hri hi))
    · exact hri
    · exact absurd (heq.trans hrq.symm) (ne_of_lt (getD_lt_getD_of_chain_lt hs hri hrlen))
  rw [hr, this]

/-- `binarySearch` with a NaN key on a nonempty array throws
`invalidComparison` at the very first probe: no branch of the three-way
comparison holds. -/
theorem binarySearch_nan (a : List ENum) (h : a ≠ []) :
    binarySearch a .nan = .error .invalidComparison := by
  have hlen : 1 ≤ a.length := List.length_pos.mpr h
  rw [binarySearch, binarySearchLoop, dif_pos (by omega)]
  simp only [blt_nan_right, bgt_nan_right, beq_nan_right, Bool.false_eq_true,
    if_false]

/-- `insertionPoint` as worded by the claim: the index of the first element
not below the key (for a NaN-free sorted array not containing the key this
is the first element greater than the key), or the length when all elements
are smaller. -/
def insertionPoint (a : List ℚ) (key : ℚ) : ℕ :=
  (a.takeWhile fun v => decide (v < key)).length

theorem insertionPoint_eq_countP (key : ℚ) :
    ∀ (l : List ℚ), l.Chain' (· ≤ ·) → key ∉ l →
      insertionPoint l key = l.countP fun v => decide (v < key)
  | [], _, _ => rfl
  | a :: t, hs, hnm => by
    by_cases ha : a < key
    · rw [insertionPoint, List.takeWhile_cons_of_pos (by simpa using ha),
        List.countP_cons_of_pos _ _ (by simpa using ha)]
      have := insertionPoint_eq_countP key t hs.tail
        (fun hmem => hnm (List.mem_cons_of_mem a hmem))
      rw [insertionPoint] at this
      simp [this]
    · have hgt : key < a :=
        lt_of_le_of_ne (le_of_not_lt ha)
          (fun hh => hnm (hh ▸ List.mem_cons_self a t))
      rw [insertionPoint, List.takeWhile_cons_of_neg (by simpa using ha),
        List.countP_cons_of_neg _ _ (by simpa using ha)]
      have hrest : t.countP (fun v => decide (v < key)) = 0 := by
        refine countP_eq_of_split _ t 0 (by omega) (by omega) ?_
        intro j _ hj
        have hj0 : a ≤ t.getD j 0 := by
          have hpw := List.chain'_iff_pairwise.mp hs
          have hall := (List.pairwise_cons.mp hpw).1
          have hmemj : t.getD j 0 ∈ t := by
            rw [List.getD_eq_getElem t 0 hj]
            exact List.getElem_mem hj
          exact hall _ hmemj
        simpa using not_lt.mpr (le_of_lt (lt_of_lt_of_le hgt hj0))
      simp [hrest]

/-! ## Success/failure shapes of the coefficient computations -/

theorem except_map_eq_ok {ε α β : Type} (e : Except ε α) (f : α → β) (b : β) :
    e.map f = .ok b ↔ ∃ a, e = .ok a ∧ b = f a := by
  cases e <;> simp [Except.map, eq_comm]

theorem except_map_eq_error {ε α β : Type} (e : Except ε α) (f : α → β) (er : ε) :
    e.map f = .error er ↔ e = .error er := by
  cases e <;> simp [Except.map]

theorem getD_map_range {α : Type} (n : ℕ) (f : ℕ → α) (i : ℕ) (h : i < n) (d : α) :
    ((List.range n).map f).getD i d = f i := by
  have hlen : i < ((List.range n).map f).length := by simpa
  rw [List.getD_eq_getElem _ d hlen]
  simp

theorem computeLinear_ok_elim {xs ys : List ℚ} {sc : List (List ℚ)}
    (h : computeLinearPolyCoefficients xs ys = .ok sc) :
    xs.length = ys.length ∧ 2 ≤ xs.length ∧ xs.Chain' (· < ·) ∧
      sc = linearSegmentCoeffs xs ys := by
  unfold computeLinearPolyCoefficients MathArrays_checkOrder at h
  by_cases h1 : xs.length = ys.length
  case neg =>
    rw [if_pos (by omega)] at h
    exact Except.noConfusion h
  case pos =>
    rw [if_neg (by omega)] at h
    by_cases h2 : xs.length < 2
    · rw [if_pos h2] at h
      exact Except.noConfusion h
    · rw [if_neg h2] at h
      by_cases h3 : strictlyIncB xs = true
      · rw [if_pos h3] at h
        simp only [bind, Except.bind, pure, Except.pure, Except.ok.injEq] at h
        exact ⟨h1, by omega, (strictlyIncB_iff xs).mp h3, h.symm⟩
      · rw [if_neg h3] at h
        simp only [bind, Except.bind] at h
        exact Except.noConfusion h

theorem computeLinear_ok_intro (xs ys : List ℚ) (h1 : xs.length = ys.length)
    (h2 : 2 ≤ xs.length) (h3 : xs.Chain' (· < ·)) :
    computeLinearPolyCoefficients xs ys = .ok (linearSegmentCoeffs xs ys) := by
  unfold computeLinearPolyCoefficients MathArrays_checkOrder
  rw [if_neg (by omega), if_neg (by omega), if_pos ((strictlyIncB_iff xs).mpr h3)]
  rfl

theorem computeCubic_ok_elim {xs ys : List ℚ} {sc : List (List ℚ)}
    (h : computeCubicPolyCoefficients xs ys = .ok sc) :
    xs.length = ys.length ∧ 3 ≤ xs.length ∧ xs.Chain' (· < ·) ∧
      sc = cubicSegmentCoeffs xs ys := by
  unfold computeCubicPolyCoefficients checkStrictlyIncreasing at h
  by_cases h1 : xs.length = ys.length
  case neg =>
    rw [if_pos (by omega)] at h
    exact Except.noConfusion h
  case pos =>
    rw [if_neg (by omega)] at h
    by_cases h2 : xs.length < 3
    · rw [if_pos h2] at h
      exact Except.noConfusion h
    · rw [if_neg h2] at h
      by_cases h3 : strictlyIncB xs = true
      · rw [if_pos h3] at h
        simp only [bind, Except.bind, pure, Except.pure, Except.ok.injEq] at h
        exact ⟨h1, by omega, (strictlyIncB_iff xs).mp h3, h.symm⟩
      · rw [if_neg h3] at h
        simp only [bind, Except.bind] at h
        exact Except.noConfusion h

theorem computeCubic_ok_intro (xs ys : List ℚ) (h1 : xs.length = ys.length)
    (h2 : 3 ≤ xs.length) (h3 : xs.Chain' (· < ·)) :
    computeCubicPolyCoefficients xs ys = .ok (cubicSegmentCoeffs xs ys) := by
  unfold computeCubicPolyCoefficients checkStrictlyIncreasing
  rw [if_neg (by omega), if_neg (by omega), if_pos ((strictlyIncB_iff xs).mpr h3)]
  rfl

theorem computeHermite_ok_intro (xs ys fd : List ℚ) (h1 : xs.length = ys.length)
    (h2 : xs.length = fd.length) (h3 : 2 ≤ xs.length) :
    computeHermitePolyCoefficients xs ys fd = .ok (hermiteSegmentCoeffs xs ys fd) := by
  unfold computeHermitePolyCoefficients
  rw [if_neg (by omega), if_neg (by omega)]

theorem computeAkima_ok_elim {xs ys : List ℚ} {sc : List (List ℚ)}
    (h : computeAkimaPolyCoefficients xs ys = .ok sc) :
    xs.length = ys.length ∧ 5 ≤ xs.length ∧ xs.Chain' (· < ·) ∧
      sc = hermiteSegmentCoeffs xs ys
        ((List.range (xs.length - 1 + 1)).map (akimaFirstDeriv xs ys (xs.length - 1))) := by
  unfold computeAkimaPolyCoefficients checkStrictlyIncreasing at h
  by_cases h1 : xs.length = ys.length
  case neg =>
    rw [if_pos (by omega)] at h
    exact Except.noConfusion h
  case pos =>
    rw [if_neg (by omega)] at h
    by_cases h2 : xs.length < 5
    · rw [if_pos h2] at h
      exact Except.noConfusion h
    · rw [if_neg h2] at h
      by_cases h3 : strictlyIncB xs = true
      · rw [if_pos h3] at h
        simp only [bind, Except.bind] at h
        rw [computeHermite_ok_intro xs ys _ (by omega) (by simp; omega) (by omega)] at h
        simp only [Except.ok.injEq] at h
        exact ⟨h1, by omega, (strictlyIncB_iff xs).mp h3, h.symm⟩
      · rw [if_neg h3] at h
        simp only [bind, Except.bind] at h
        exact Except.noConfusion h

theorem computeAkima_ok_intro (xs ys : List ℚ) (h1 : xs.length = ys.length)
    (h2 : 5 ≤ xs.length) (h3 : xs.Chain' (· < ·)) :
    computeAkimaPolyCoefficients xs ys = .ok (hermiteSegmentCoeffs xs ys
      ((List.range (xs.length - 1 + 1)).map (akimaFirstDeriv xs ys (xs.length - 1)))) := by
  unfold computeAkimaPolyCoefficients checkStrictlyIncreasing
  rw [if_neg (by omega), if_neg (by omega), if_pos ((strictlyIncB_iff xs).mpr h3)]
  simp only [bind, Except.bind]
  rw [computeHermite_ok_intro xs ys _ (by omega) (by simp; omega) (by omega)]

theorem createNN_ok_elim {xs ys : List ℚ} {f : UniFun}
    (h : createNearestNeighborInterpolator xs ys = .ok f) (hn : 2 ≤ xs.length) :
    xs.length = ys.length ∧ xs.Chain' (· < ·) ∧ f = nnFun xs ys := by
  unfold createNearestNeighborInterpolator checkStrictlyIncreasing at h
  by_cases h1 : xs.length = ys.length
  case neg =>
    rw [if_pos (by omega)] at h
    exact Except.noConfusion h
  case pos =>
    rw [if_neg (by omega), if_neg (by omega), if_neg (by omega)] at h
    by_cases h3 : strictlyIncB xs = true
    · rw [if_pos h3] at h
      simp only [bind, Except.bind, pure, Except.pure, Except.ok.injEq] at h
      exact ⟨h1, (strictlyIncB_iff xs).mp h3, h.symm⟩
    · rw [if_neg h3] at h
      simp only [bind, Except.bind] at h
      exact Except.noConfusion h

/-! ## Claim C8: binarySearch behavior -/

/-- C8: for every sorted NaN-free array, `binarySearch` returns the index of
the key when contained (on a strictly increasing array, the unique index;
in general, the index of an occurrence), and otherwise
`-(insertionPoint + 1)` with `insertionPoint` the index of the first
element greater than the key (the length when all elements are smaller);
a NaN encountered in a comparison (in particular a NaN key probed against
any element of a nonempty array) throws `InvalidComparison`. -/
theorem C8_binarySearch :
    (∀ (l : List ℚ) (key : ℚ) (i : ℕ), l.Chain' (· < ·) → i < l.length →
        l.getD i 0 = key → binarySearch (l.map .fin) (.fin key) = .ok (i : Int)) ∧
    (∀ (l : List ℚ) (key : ℚ), l.Chain' (· ≤ ·) → key ∈ l →
        ∃ r : ℕ, binarySearch (l.map .fin) (.fin key) = .ok (r : Int) ∧
          r < l.length ∧ l.getD r 0 = key) ∧
    (∀ (l : List ℚ) (key : ℚ), l.Chain' (· ≤ ·) → key ∉ l →
        binarySearch (l.map .fin) (.fin key) =
          .ok (-((insertionPoint l key : Int) + 1))) ∧
    (∀ a : List ENum, a ≠ [] → binarySearch a .nan = .error .invalidComparison) := by
  refine ⟨fun l key i hs hi heq => binarySearch_strict_at l key hs i hi heq,
    fun l key hs hm => binarySearch_mem l key hs hm,
    fun l key hs hnm => ?_,
    fun a ha => binarySearch_nan a ha⟩
  rw [binarySearch_not_mem l key hs hnm, insertionPoint_eq_countP key l hs hnm]

/-- Witness for C8 at the claim's concrete inputs `a = [1,3,5,7]`. -/
theorem C8_binarySearch_witness :
    binarySearch (([1, 3, 5, 7] : List ℚ).map .fin) (.fin 5) = .ok 2 ∧
    binarySearch (([1, 3, 5, 7] : List ℚ).map .fin) (.fin 4) = .ok (-3) ∧
    binarySearch (([1, 3, 5, 7] : List ℚ).map .fin) (.fin 0) = .ok (-1) ∧
    binarySearch (([1, 3, 5, 7] : List ℚ).map .fin) (.fin 8) = .ok (-5) := by
  have hlt : ([1, 3, 5, 7] : List ℚ).Chain' (· < ·) :=
    (strictlyIncB_iff _).mp (by decide)
  have hle : ([1, 3, 5, 7] : List ℚ).Chain' (· ≤ ·) :=
    hlt.imp fun a b hab => le_of_lt hab
  refine ⟨C8_binarySearch.1 [1, 3, 5, 7] 5 2 hlt (by decide) (by decide), ?_, ?_, ?_⟩
  · rw [C8_binarySearch.2.2.1 [1, 3, 5, 7] 4 hle (by decide)]
    rw [show insertionPoint [1, 3, 5, 7] (4 : ℚ) = 2 from by decide]
    decide
  · rw [C8_binarySearch.2.2.1 [1, 3, 5, 7] 0 hle (by decide)]
    rw [show insertionPoint [1, 3, 5, 7] (0 : ℚ) = 0 from by decide]
    decide
  · rw [C8_binarySearch.2.2.1 [1, 3, 5, 7] 8 hle (by decide)]
    rw [show insertionPoint [1, 3, 5, 7] (8 : ℚ) = 4 from by decide]
    decide

/-! ## Claim C9: linear segment coefficients (corrected: trimming) -/

/-- C9 counterexample: for `xVals = [0,1]`, `yVals = [0,0]` the produced
segment coefficient array is `[0]` (the zero slope is trimmed by
`trimPoly`), which is not the claimed two-entry
`[y_0, (y_1-y_0)/(x_1-x_0)] = [0, 0]`. -/
theorem C9_counterexample :
    computeLinearPolyCoefficients [0, 1] [0, 0] = .ok [[0]] ∧
    ([0] : List ℚ) ≠ [([0, 0] : List ℚ).getD 0 0,
      (([0, 0] : List ℚ).getD 1 0 - ([0, 0] : List ℚ).getD 0 0) /
        (([0, 1] : List ℚ).getD 1 0 - ([0, 1] : List ℚ).getD 0 0)] := by
  constructor
  · rw [computeLinear_ok_intro [0, 1] [0, 0] rfl (by decide)
      ((strictlyIncB_iff _).mp (by decide))]
    have hseg : linearSegmentCoeffs [0, 1] [0, 0] = [[0]] := by
      rw [linearSegmentCoeffs]
      rw [show ([0, 1] : List ℚ).length - 1 = 1 from rfl,
        show List.range 1 = [0] from rfl, List.map_cons, List.map_nil]
      have hdiv : (([0, 0] : List ℚ).getD 1 0 - ([0, 0] : List ℚ).getD 0 0) /
          (([0, 1] : List ℚ).getD 1 0 - ([0, 1] : List ℚ).getD 0 0) = 0 := by
        show ((0 : ℚ) - 0) / ((1 : ℚ) - 0) = 0
        norm_num
      rw [hdiv, show ([0, 0] : List ℚ).getD 0 0 = 0 from rfl,
        show trimPoly [(0 : ℚ), 0] = [0] from by simp [trimPoly, trimPolyRev]]
    rw [hseg]
  · intro hcon
    exact absurd (congrArg List.length hcon) (by simp)

/-- C9 (amended): `computeLinearPolyCoefficients` returns `n-1` segment
coefficient arrays in which segment `i` is
`trimPoly [y_i, (y_{i+1}-y_i)/(x_{i+1}-x_i)]`, i.e. the degree-1
coefficients with a zero slope entry trimmed. -/
theorem C9_linear_coeffs (xs ys : List ℚ) (sc : List (List ℚ))
    (h : computeLinearPolyCoefficients xs ys = .ok sc) :
    sc.length = xs.length - 1 ∧
    ∀ i, i < xs.length - 1 →
      sc.getD i [] = trimPoly [ys.getD i 0,
        (ys.getD (i + 1) 0 - ys.getD i 0) / (xs.getD (i + 1) 0 - xs.getD i 0)] := by
  obtain ⟨hlen, hmin, hsi, hsc⟩ := computeLinear_ok_elim h
  subst hsc
  refine ⟨by simp [linearSegmentCoeffs], fun i hi => ?_⟩
  rw [linearSegmentCoeffs, getD_map_range _ _ i hi]

/-- Witness for C9 at `xVals = [0, 2]`, `yVals = [1, 5]`. -/
theorem C9_linear_coeffs_witness :
    (linearSegmentCoeffs [0, 2] [1, 5]).length = ([0, 2] : List ℚ).length - 1 ∧
    ∀ i, i < ([0, 2] : List ℚ).length - 1 →
      (linearSegmentCoeffs [0, 2] [1, 5]).getD i [] =
        trimPoly [([1, 5] : List ℚ).getD i 0,
          (([1, 5] : List ℚ).getD (i + 1) 0 - ([1, 5] : List ℚ).getD i 0) /
            (([0, 2] : List ℚ).getD (i + 1) 0 - ([0, 2] : List ℚ).getD i 0)] :=
  C9_linear_coeffs [0, 2] [1, 5] _
    (computeLinear_ok_intro [0, 2] [1, 5] rfl (by decide)
      ((strictlyIncB_iff _).mp (by decide)))

/-! ## Claim C10: NaN argument throws InvalidComparison -/

/-- C10: every interpolant built from 2 or more knots by the four creators,
applied to NaN, does not return NaN but throws the binary-search
`InvalidComparison` error.  (For the polynomial interpolants, success of the
creator already forces at least 2 knots.) -/
theorem C10_nan_argument :
    (∀ (xs ys : List ℚ) (f : UniFun), createLinearInterpolator xs ys = .ok f →
        f .nan = .error .invalidComparison) ∧
    (∀ (xs ys : List ℚ) (f : UniFun), createCubicSplineInterpolator xs ys = .ok f →
        f .nan = .error .invalidComparison) ∧
    (∀ (xs ys : List ℚ) (f : UniFun), createAkimaSplineInterpolator xs ys = .ok f →
        f .nan = .error .invalidComparison) ∧
    (∀ (xs ys : List ℚ) (f : UniFun), 2 ≤ xs.length →
        createNearestNeighborInterpolator xs ys = .ok f →
        f .nan = .error .invalidComparison) := by
  have hpoly : ∀ (xs : List ℚ) (sc : List (List ℚ)), xs ≠ [] →
      mkPolyInterp xs sc .nan = .error .invalidComparison := by
    intro xs sc hne
    rw [mkPolyInterp, evaluatePolySegment]
    rw [binarySearch_nan (xs.map .fin) (by simpa using hne)]
    rfl
  refine ⟨fun xs ys f h => ?_, fun xs ys f h => ?_, fun xs ys f h => ?_,
    fun xs ys f hn h => ?_⟩
  · rw [createLinearInterpolator] at h
    obtain ⟨sc, hsc, hf⟩ := (except_map_eq_ok _ _ _).mp h
    obtain ⟨_, hmin, _, _⟩ := computeLinear_ok_elim hsc
    rw [hf]
    exact hpoly xs sc (by intro hc; rw [hc] at hmin; simp at hmin)
  · rw [createCubicSplineInterpolator] at h
    obtain ⟨sc, hsc, hf⟩ := (except_map_eq_ok _ _ _).mp h
    obtain ⟨_, hmin, _, _⟩ := computeCubic_ok_elim hsc
    rw [hf]
    exact hpoly xs sc (by intro hc; rw [hc] at hmin; simp at hmin)
  · rw [createAkimaSplineInterpolator] at h
    obtain ⟨sc, hsc, hf⟩ := (except_map_eq_ok _ _ _).mp h
    obtain ⟨_, hmin, _, _⟩ := computeAkima_ok_elim hsc
    rw [hf]
    exact hpoly xs sc (by intro hc; rw [hc] at hmin; simp at hmin)
  · obtain ⟨_, _, hf⟩ := createNN_ok_elim h hn
    rw [hf, nnFun]
    rw [binarySearch_nan (xs.map .fin) (by
      intro hc
      simp only [List.map_eq_nil_iff] at hc
      rw [hc] at hn
      simp at hn)]
    rfl

/-- Witness for C10: the linear interpolant over `[0,1]`, `[0,1]` applied
to NaN throws `InvalidComparison`. -/
theorem C10_nan_argument_witness :
    createLinearInterpolator [0, 1] [0, 1] =
      .ok (mkPolyInterp [0, 1] (linearSegmentCoeffs [0, 1] [0, 1])) ∧
    mkPolyInterp [0, 1] (linearSegmentCoeffs [0, 1] [0, 1]) .nan =
      .error .invalidComparison := by
  have hcr : createLinearInterpolator [0, 1] [0, 1] =
      .ok (mkPolyInterp [0, 1] (linearSegmentCoeffs [0, 1] [0, 1])) := by
    rw [createLinearInterpolator, computeLinear_ok_intro [0, 1] [0, 1] rfl (by decide)
      ((strictlyIncB_iff _).mp (by decide))]
    rfl
  exact ⟨hcr, C10_nan_argument.1 [0, 1] [0, 1] _ hcr⟩

/-! ## Claim C7: failure conditions of the coefficient computations -/

theorem computeLinear_shape (xs ys : List ℚ) (h1 : xs.length = ys.length)
    (h2 : ¬ xs.length < 2) :
    computeLinearPolyCoefficients xs ys = .ok (linearSegmentCoeffs xs ys) ∨
      computeLinearPolyCoefficients xs ys = .error .invalidSequence := by
  unfold computeLinearPolyCoefficients MathArrays_checkOrder
  rw [if_neg (by omega), if_neg h2]
  by_cases h3 : strictlyIncB xs = true
  · rw [if_pos h3]
    exact Or.inl rfl
  · rw [if_neg h3]
    exact Or.inr rfl

theorem computeCubic_shape (xs ys : List ℚ) (h1 : xs.length = ys.length)
    (h2 : ¬ xs.length < 3) :
    computeCubicPolyCoefficients xs ys = .ok (cubicSegmentCoeffs xs ys) ∨
      computeCubicPolyCoefficients xs ys = .error .invalidSequence := by
  unfold computeCubicPolyCoefficients checkStrictlyIncreasing
  rw [if_neg (by omega), if_neg h2]
  by_cases h3 : strictlyIncB xs = true
  · rw [if_pos h3]
    exact Or.inl rfl
  · rw [if_neg h3]
    exact Or.inr rfl

theorem computeAkima_shape (xs ys : List ℚ) (h1 : xs.length = ys.length)
    (h2 : ¬ xs.length < 5) :
    computeAkimaPolyCoefficients xs ys = .ok (hermiteSegmentCoeffs xs ys
        ((List.range (xs.length - 1 + 1)).map (akimaFirstDeriv xs ys (xs.length - 1)))) ∨
      computeAkimaPolyCoefficients xs ys = .error .invalidSequence := by
  by_cases h3 : strictlyIncB xs = true
  · exact Or.inl (computeAkima_ok_intro xs ys h1 (by omega) ((strictlyIncB_iff xs).mp h3))
  · refine Or.inr ?_
    unfold computeAkimaPolyCoefficients checkStrictlyIncreasing
    rw [if_neg (by omega), if_neg h2, if_neg h3]
    rfl

/-- C7: the coefficient computations fail with `TooFewPoints` exactly when
the point count is below the algorithm-specific minimum (2 linear, 3 cubic,
5 Akima, 2 Hermite builder), and with `DimensionMismatch` when the input
arrays have different lengths (the dimension check runs first); in
particular the Akima computation and creator with 4 or fewer (equal-length)
points always fail with `TooFewPoints`. -/
theorem C7_error_minimums :
    (∀ xs ys : List ℚ, xs.length ≠ ys.length →
        computeLinearPolyCoefficients xs ys = .error .dimensionMismatch ∧
        computeCubicPolyCoefficients xs ys = .error .dimensionMismatch ∧
        computeAkimaPolyCoefficients xs ys = .error .dimensionMismatch) ∧
    (∀ xs ys fd : List ℚ, xs.length ≠ ys.length ∨ xs.length ≠ fd.length →
        computeHermitePolyCoefficients xs ys fd = .error .dimensionMismatch) ∧
    (∀ xs ys : List ℚ, xs.length = ys.length →
        ((computeLinearPolyCoefficients xs ys = .error .tooFewPoints ↔ xs.length < 2) ∧
         (computeCubicPolyCoefficients xs ys = .error .tooFewPoints ↔ xs.length < 3) ∧
         (computeAkimaPolyCoefficients xs ys = .error .tooFewPoints ↔ xs.length < 5))) ∧
    (∀ xs ys fd : List ℚ, xs.length = ys.length → xs.length = fd.length →
        (computeHermitePolyCoefficients xs ys fd = .error .tooFewPoints ↔
          xs.length < 2)) ∧
    (∀ xs ys : List ℚ, xs.length = ys.length → xs.length ≤ 4 →
        computeAkimaPolyCoefficients xs ys = .error .tooFewPoints ∧
        createAkimaSplineInterpolator xs ys = .error .tooFewPoints) := by
  have hlin : ∀ xs ys : List ℚ, xs.length = ys.length →
      (computeLinearPolyCoefficients xs ys = .error .tooFewPoints ↔ xs.length < 2) := by
    intro xs ys h1
    constructor
    · intro h
      by_contra h2
      rcases computeLinear_shape xs ys h1 h2 with hc | hc <;>
        · rw [hc] at h
          simp at h
    · intro h2
      unfold computeLinearPolyCoefficients
      rw [if_neg (by omega), if_pos h2]
  have hcub : ∀ xs ys : List ℚ, xs.length = ys.length →
      (computeCubicPolyCoefficients xs ys = .error .tooFewPoints ↔ xs.length < 3) := by
    intro xs ys h1
    constructor
    · intro h
      by_contra h2
      rcases computeCubic_shape xs ys h1 h2 with hc | hc <;>
        · rw [hc] at h
          simp at h
    · intro h2
      unfold computeCubicPolyCoefficients
      rw [if_neg (by omega), if_pos h2]
  have haki : ∀ xs ys : List ℚ, xs.length = ys.length →
      (computeAkimaPolyCoefficients xs ys = .error .tooFewPoints ↔ xs.length < 5) := by
    intro xs ys h1
    constructor
    · intro h
      by_contra h2
      rcases computeAkima_shape xs ys h1 h2 with hc | hc <;>
        · rw [hc] at h
          simp at h
    · intro h2
      unfold computeAkimaPolyCoefficients
      rw [if_neg (by omega), if_pos h2]
  refine ⟨?_, ?_, fun xs ys h1 => ⟨hlin xs ys h1, hcub xs ys h1, haki xs ys h1⟩,
    ?_, ?_⟩
  · intro xs ys h
    refine ⟨?_, ?_, ?_⟩
    · unfold computeLinearPolyCoefficients
      rw [if_pos h]
    · unfold computeCubicPolyCoefficients
      rw [if_pos h]
    · unfold computeAkimaPolyCoefficients
      rw [if_pos h]
  · intro xs ys fd h
    unfold computeHermitePolyCoefficients
    rw [if_pos h]
  · intro xs ys fd h1 h2
    unfold computeHermitePolyCoefficients
    rw [if_neg (by omega)]
    constructor
    · intro h
      by_contra h3
      rw [if_neg h3] at h
      exact Except.noConfusion h
    · intro h3
      rw [if_pos h3]
  · intro xs ys h1 h4
    have hc : computeAkimaPolyCoefficients xs ys = .error .tooFewPoints :=
      (haki xs ys h1).mpr (by omega)
    refine ⟨hc, ?_⟩
    rw [createAkimaSplineInterpolator, hc]
    rfl

/-- Witness for C7 at concrete inputs: one-point (equal-length) failures of
each computation, a dimension mismatch, and the 4-point Akima failure for
both the coefficient function and the creator. -/
theorem C7_error_minimums_witness :
    computeLinearPolyCoefficients [0] [0] = .error .tooFewPoints ∧
    computeCubicPolyCoefficients [0, 1] [0, 1] = .error .tooFewPoints ∧
    computeHermitePolyCoefficients [0] [0] [0] = .error .tooFewPoints ∧
    computeLinearPolyCoefficients [0, 1] [0] = .error .dimensionMismatch ∧
    computeAkimaPolyCoefficients [0, 1, 2, 3] [0, 0, 0, 0] = .error .tooFewPoints ∧
    createAkimaSplineInterpolator [0, 1, 2, 3] [0, 0, 0, 0] = .error .tooFewPoints := by
  refine ⟨(C7_error_minimums.2.2.1 [0] [0] rfl).1.mpr (by decide),
    (C7_error_minimums.2.2.1 [0, 1] [0, 1] rfl).2.1.mpr (by decide),
    (C7_error_minimums.2.2.2.1 [0] [0] [0] rfl rfl).mpr (by decide),
    C7_error_minimums.1 [0, 1] [0] (by decide) |>.1,
    (C7_error_minimums.2.2.2.2 [0, 1, 2, 3] [0, 0, 0, 0] rfl (by decide)).1,
    (C7_error_minimums.2.2.2.2 [0, 1, 2, 3] [0, 0, 0, 0] rfl (by decide)).2⟩

/-! ## Claim C4: nearest-neighbor interpolator -/

theorem createNN_ok_intro (xs ys : List ℚ) (h1 : xs.length = ys.length)
    (h2 : 2 ≤ xs.length) (h3 : xs.Chain' (· < ·)) :
    createNearestNeighborInterpolator xs ys = .ok (nnFun xs ys) := by
  unfold createNearestNeighborInterpolator checkStrictlyIncreasing
  rw [if_neg (by omega), if_neg (by omega), if_neg (by omega),
    if_pos ((strictlyIncB_iff xs).mpr h3)]
  rfl

/-- Evaluation of the `n ≥ 2` nearest-neighbor closure at a non-knot query:
with `c` elements strictly below `q`, the result selects per the clamping
and midpoint rules. -/
theorem nnFun_eval_not_mem (xs ys : List ℚ) (q : ℚ) (hs : xs.Chain' (· ≤ ·))
    (hnm : q ∉ xs) :
    nnFun xs ys (.fin q) =
      (let c := xs.countP fun v => decide (v < q)
       if c = 0 then .ok (.fin (ys.getD 0 0))
       else if xs.length ≤ c then .ok (.fin (ys.getD (xs.length - 1) 0))
       else if (q - xs.getD (c - 1) 0) + (q - xs.getD (c - 1) 0) <
           xs.getD c 0 - xs.getD (c - 1) 0 then .ok (.fin (ys.getD (c - 1) 0))
       else .ok (.fin (ys.getD c 0))) := by
  rw [nnFun, binarySearch_not_mem xs q hs hnm]
  simp only [bind, Except.bind]
  set c := xs.countP fun v => decide (v < q) with hc
  rw [if_neg (by omega)]
  by_cases hc0 : c = 0
  · rw [if_pos (by omega), if_pos hc0]
    rfl
  · rw [if_neg (by omega), if_neg hc0]
    by_cases hcn : xs.length ≤ c
    · rw [if_pos (by omega), if_pos hcn]
      rfl
    · rw [if_neg (by omega), if_neg hcn]
      have h1 : (-(-((c : Int) + 1)) - 1).toNat = c := by omega
      rw [h1]
      rfl

/-- C4: the nearest-neighbor interpolant returns NaN for 0 points, the
single y-value for 1 point, and for `n ≥ 2` strictly increasing knots it
clamps queries outside the domain to the boundary y-values, returns the
exact knot's y-value, and for a query strictly between two neighboring
knots returns the y-value of the strictly closer knot, the left knot being
chosen iff `d+d < w` (so an exact midpoint resolves to the right knot). -/
theorem C4_nearest_neighbor (xs ys : List ℚ) (f : UniFun)
    (h : createNearestNeighborInterpolator xs ys = .ok f) :
    (xs.length = 0 → ∀ x, f x = .ok .nan) ∧
    (xs.length = 1 → ∀ x, f x = .ok (.fin (ys.getD 0 0))) ∧
    (2 ≤ xs.length →
      (∀ q : ℚ, q < xs.getD 0 0 → f (.fin q) = .ok (.fin (ys.getD 0 0))) ∧
      (∀ q : ℚ, xs.getD (xs.length - 1) 0 < q →
        f (.fin q) = .ok (.fin (ys.getD (xs.length - 1) 0))) ∧
      (∀ i, i < xs.length → f (.fin (xs.getD i 0)) = .ok (.fin (ys.getD i 0))) ∧
      (∀ i (q : ℚ), 1 ≤ i → i < xs.length → xs.getD (i - 1) 0 < q →
        q < xs.getD i 0 →
        f (.fin q) = .ok (.fin
          (if (q - xs.getD (i - 1) 0) + (q - xs.getD (i - 1) 0) <
              xs.getD i 0 - xs.getD (i - 1) 0
           then ys.getD (i - 1) 0 else ys.getD i 0)))) := by
  refine ⟨?_, ?_, ?_⟩
  · intro h0 x
    unfold createNearestNeighborInterpolator at h
    by_cases hd : xs.length = ys.length
    · rw [if_neg (by omega), if_pos h0] at h
      simp only [Except.ok.injEq] at h
      rw [← h]
    · rw [if_pos (by omega)] at h
      exact Except.noConfusion h
  · intro h1 x
    unfold createNearestNeighborInterpolator at h
    by_cases hd : xs.length = ys.length
    · rw [if_neg (by omega), if_neg (by omega), if_pos h1] at h
      simp only [Except.ok.injEq] at h
      rw [← h]
    · rw [if_pos (by omega)] at h
      exact Except.noConfusion h
  · intro h2
    obtain ⟨hlen, hsi, hf⟩ := createNN_ok_elim h h2
    have hsle : xs.Chain' (· ≤ ·) := hsi.imp fun a b hab => le_of_lt hab
    subst hf
    refine ⟨?_, ?_, ?_, ?_⟩
    · intro q hq
      have hnm : q ∉ xs := by
        intro hmem
        obtain ⟨i, hilen, hieq⟩ := List.mem_iff_getElem.mp hmem
        have hle0 : xs.getD 0 0 ≤ q := by
          rw [← hieq, ← List.getD_eq_getElem xs 0 hilen]
          exact getD_le_getD_of_chain_le hsle (Nat.zero_le i) hilen
        exact absurd hq (not_lt.mpr hle0)
      have hcnt : (xs.countP fun v => decide (v < q)) = 0 :=
        countP_eq_of_split _ xs 0 (by omega) (by omega)
          (fun j _ hj => by
            have : xs.getD 0 0 ≤ xs.getD j 0 :=
              getD_le_getD_of_chain_le hsle (Nat.zero_le j) hj
            simpa using not_lt.mpr (le_trans (le_of_lt hq) this))
      rw [nnFun_eval_not_mem xs ys q hsle hnm]
      simp only [hcnt]
      simp
    · intro q hq
      have hlast : ∀ j, j < xs.length → xs.getD j 0 < q := by
        intro j hj
        exact lt_of_le_of_lt
          (getD_le_getD_of_chain_le hsle (by omega) (by omega)) hq
      have hnm : q ∉ xs := by
        intro hmem
        obtain ⟨i, hilen, hieq⟩ := List.mem_iff_getElem.mp hmem
        have := hlast i hilen
        rw [List.getD_eq_getElem xs 0 hilen, hieq] at this
        exact lt_irrefl q this
      have hcnt : (xs.countP fun v => decide (v < q)) = xs.length :=
        countP_eq_of_split _ xs xs.length (le_refl _)
          (fun j hj => by simpa using hlast j hj) (fun j hj hjl => by omega)
      rw [nnFun_eval_not_mem xs ys q hsle hnm]
      simp only [hcnt]
      rw [if_neg (by omega), if_pos (le_refl _)]
    · intro i hi
      rw [nnFun, binarySearch_strict_at xs _ hsi i hi rfl]
      simp only [bind, Except.bind]
      rw [if_pos (by omega)]
      have hti : ((i : Int)).toNat = i := by omega
      rw [hti]
      rfl
    · intro i q h1i hi hql hqr
      have hnm : q ∉ xs := by
        intro hmem
        obtain ⟨j, hjlen, hjeq⟩ := List.mem_iff_getElem.mp hmem
        have hjd : xs.getD j 0 = q := by rw [List.getD_eq_getElem xs 0 hjlen]; exact hjeq
        rcases lt_or_ge j i with hj | hj
        · have : xs.getD j 0 ≤ xs.getD (i - 1) 0 :=
            getD_le_getD_of_chain_le hsle (by omega) (by omega)
          rw [hjd] at this
          exact absurd hql (not_lt.mpr this)
        · have : xs.getD i 0 ≤ xs.getD j 0 :=
            getD_le_getD_of_chain_le hsle hj hjlen
          rw [hjd] at this
          exact absurd hqr (not_lt.mpr this)
      have hcnt : (xs.countP fun v => decide (v < q)) = i :=
        countP_eq_of_split _ xs i (by omega)
          (fun j hj => by
            have : xs.getD j 0 ≤ xs.getD (i - 1) 0 :=
              getD_le_getD_of_chain_le hsle (by omega) (by omega)
            simpa using lt_of_le_of_lt this hql)
          (fun j hj hjl => by
            have : xs.getD i 0 ≤ xs.getD j 0 :=
              getD_le_getD_of_chain_le hsle (by omega) hjl
            simpa using not_lt.mpr (le_trans (le_of_lt hqr) this))
      rw [nnFun_eval_not_mem xs ys q hsle hnm]
      simp only [hcnt]
      rw [if_neg (by omega), if_neg (by omega)]
      split_ifs with hcond <;> rfl

/-- Witness for C4 with the claim's two knots `(0,0)` and `(10,1)`:
queries 4, 6 and the exact midpoint 5. -/
theorem C4_nearest_neighbor_witness :
    nnFun [0, 10] [0, 1] (.fin 4) = .ok (.fin 0) ∧
    nnFun [0, 10] [0, 1] (.fin 6) = .ok (.fin 1) ∧
    nnFun [0, 10] [0, 1] (.fin 5) = .ok (.fin 1) := by
  have hcr : createNearestNeighborInterpolator [0, 10] [0, 1] =
      .ok (nnFun [0, 10] [0, 1]) :=
    createNN_ok_intro [0, 10] [0, 1] rfl (by decide) ((strictlyIncB_iff _).mp (by decide))
  have hthm := C4_nearest_neighbor [0, 10] [0, 1] _ hcr
  have hmid := hthm.2.2 (by decide)
  refine ⟨?_, ?_, ?_⟩
  · have h4 := hmid.2.2.2 1 4 (by decide) (by decide) (by decide) (by decide)
    rw [if_pos (by norm_num)] at h4
    exact h4
  · have h6 := hmid.2.2.2 1 6 (by decide) (by decide) (by decide) (by decide)
    rw [if_neg (by norm_num)] at h6
    exact h6
  · have h5 := hmid.2.2.2 1 5 (by decide) (by decide) (by decide) (by decide)
    rw [if_neg (by norm_num)] at h5
    exact h5

/-! ## Claim C3: createInterpolatorWithFallback degradation -/

/-- C3: the fallback dispatcher degrades the requested akima method by
point count: with 4 points it equals (and, on strictly increasing data with
matching lengths, succeeds as) the cubic spline creator on the same data;
with 2 points it equals the linear creator; with 1 point it returns the
constant function of `yVals[0]`; with 0 points the constant 0 function. -/
theorem C3_fallback (xs ys : List ℚ) :
    (xs.length = 4 →
      createInterpolatorWithFallback .akima xs ys = createCubicSplineInterpolator xs ys) ∧
    (xs.length = 4 → ys.length = 4 → xs.Chain' (· < ·) →
      ∃ f, createInterpolatorWithFallback .akima xs ys = .ok f) ∧
    (xs.length = 2 →
      createInterpolatorWithFallback .akima xs ys = createLinearInterpolator xs ys) ∧
    (xs.length = 1 → ys.length = 1 →
      createInterpolatorWithFallback .akima xs ys = .ok fun _ => .ok (.fin (ys.getD 0 0))) ∧
    (xs.length = 0 →
      createInterpolatorWithFallback .akima xs ys = .ok fun _ => .ok (.fin 0)) := by
  have heq4 : xs.length = 4 →
      createInterpolatorWithFallback .akima xs ys = createCubicSplineInterpolator xs ys := by
    intro h4
    rw [createInterpolatorWithFallback]
    rw [if_neg (by omega)]
    rw [show fallbackMethod .akima xs.length = .cubic from by rw [h4]; decide]
    rw [createInterpolator]
  refine ⟨heq4, ?_, ?_, ?_, ?_⟩
  · intro h4 hy4 hsi
    rw [heq4 h4, createCubicSplineInterpolator,
      computeCubic_ok_intro xs ys (by omega) (by omega) hsi]
    exact ⟨_, rfl⟩
  · intro h2
    rw [createInterpolatorWithFallback]
    rw [if_neg (by omega)]
    rw [show fallbackMethod .akima xs.length = .linear from by rw [h2]; decide]
    rw [createInterpolator]
  · intro h1 hy1
    rw [createInterpolatorWithFallback]
    rw [if_pos (by omega)]
    simp [h1]
  · intro h0
    rw [createInterpolatorWithFallback]
    rw [if_pos (by omega)]
    simp [h0]

/-- Witness for C3: concrete 4-, 2-, 1- and 0-point datasets. -/
theorem C3_fallback_witness :
    createInterpolatorWithFallback .akima [0, 1, 2, 3] [0, 0, 0, 0] =
      createCubicSplineInterpolator [0, 1, 2, 3] [0, 0, 0, 0] ∧
    (∃ f, createInterpolatorWithFallback .akima [0, 1, 2, 3] [0, 0, 0, 0] = .ok f) ∧
    createInterpolatorWithFallback .akima [0, 1] [5, 7] =
      createLinearInterpolator [0, 1] [5, 7] ∧
    createInterpolatorWithFallback .akima [0] [9] = .ok (fun _ => .ok (.fin 9)) ∧
    createInterpolatorWithFallback .akima ([] : List ℚ) ([] : List ℚ) =
      .ok (fun _ => .ok (.fin 0)) := by
  refine ⟨(C3_fallback [0, 1, 2, 3] [0, 0, 0, 0]).1 (by decide),
    (C3_fallback [0, 1, 2, 3] [0, 0, 0, 0]).2.1 (by decide) (by decide)
      ((strictlyIncB_iff _).mp (by decide)),
    (C3_fallback [0, 1] [5, 7]).2.2.1 (by decide), ?_,
    (C3_fallback ([] : List ℚ) ([] : List ℚ)).2.2.2.2 (by decide)⟩
  have h1 := (C3_fallback [0] [9]).2.2.2.1 (by decide) (by decide)
  rw [h1]
  rfl

/-! ## Claim C1: interpolants reproduce the knot values -/

theorem evaluatePoly_at_zero (c : ℚ) (cs : List ℚ) : evaluatePoly (c :: cs) 0 = c := by
  simp [evaluatePoly]

theorem evaluatePoly_pair (a b t : ℚ) : evaluatePoly [a, b] t = a + b * t := by
  simp [evaluatePoly]
  ring

theorem linear_seg_end (y0 y1 x0 x1 : ℚ) (hne : x1 - x0 ≠ 0) :
    y0 + (y1 - y0) / (x1 - x0) * (x1 - x0) = y1 := by
  rw [div_mul_cancel₀ _ hne]
  ring

theorem cubic_seg_end (y0 y1 x0 x1 c0 c1 : ℚ) (hne : x1 - x0 ≠ 0) :
    y0 + ((y1 - y0) / (x1 - x0) - (x1 - x0) * (c1 + 2 * c0) / 3) * (x1 - x0) +
      c0 * (x1 - x0) ^ 2 + (c1 - c0) / (3 * (x1 - x0)) * (x1 - x0) ^ 3 = y1 := by
  field_simp
  ring

theorem hermite_seg_end (y0 y1 x0 x1 f0 f1 : ℚ) (hne : x1 - x0 ≠ 0) :
    y0 + f0 * (x1 - x0) +
      (3 * (y1 - y0) / (x1 - x0) - 2 * f0 - f1) / (x1 - x0) * (x1 - x0) ^ 2 +
      (2 * (y0 - y1) / (x1 - x0) + f0 + f1) / ((x1 - x0) * (x1 - x0)) *
        (x1 - x0) ^ 3 = y1 := by
  field_simp
  ring

/-- Generic knot-evaluation lemma for the piecewise-polynomial closure: if
every segment's polynomial takes the left knot's y-value at 0 and the right
knot's y-value at the segment width, then evaluation at any knot x-value
returns that knot's y-value (the last knot being served by the clamped last
segment). -/
theorem evaluatePolySegment_at_knot (xs ys : List ℚ) (sc : List (List ℚ))
    (hs : xs.Chain' (· < ·)) (hlen : sc.length = xs.length - 1)
    (hsc0 : 1 ≤ sc.length)
    (hstart : ∀ j, j < sc.length → evaluatePoly (sc.getD j []) 0 = ys.getD j 0)
    (hend : ∀ j, j < sc.length →
      evaluatePoly (sc.getD j []) (xs.getD (j + 1) 0 - xs.getD j 0) =
        ys.getD (j + 1) 0)
    (i : ℕ) (hi : i < xs.length) :
    evaluatePolySegment xs sc (.fin (xs.getD i 0)) = .ok (ys.getD i 0) := by
  rw [evaluatePolySegment, binarySearch_strict_at xs _ hs i hi rfl]
  simp only [bind, Except.bind]
  rw [if_neg (by omega)]
  by_cases hin : i < sc.length
  · have hj : (min ((i : Int)) ((sc.length : Int) - 1)).toNat = i := by omega
    rw [hj, sub_self, hstart i hin]
    rfl
  · have hj : (min ((i : Int)) ((sc.length : Int) - 1)).toNat = sc.length - 1 := by
      omega
    rw [hj]
    have hlast : sc.length - 1 + 1 = i := by omega
    rw [show xs.getD i 0 - xs.getD (sc.length - 1) 0 =
        xs.getD (sc.length - 1 + 1) 0 - xs.getD (sc.length - 1) 0 from by rw [hlast],
      hend (sc.length - 1) (by omega), hlast]
    rfl

/-- C1: for every valid input of the required minimum size, each of the four
interpolants evaluated at knot `xVals[i]` returns `yVals[i]` exactly. -/
theorem C1_knot_values :
    (∀ (xs ys : List ℚ) (f : UniFun), createLinearInterpolator xs ys = .ok f →
        ∀ i, i < xs.length → f (.fin (xs.getD i 0)) = .ok (.fin (ys.getD i 0))) ∧
    (∀ (xs ys : List ℚ) (f : UniFun), createCubicSplineInterpolator xs ys = .ok f →
        ∀ i, i < xs.length → f (.fin (xs.getD i 0)) = .ok (.fin (ys.getD i 0))) ∧
    (∀ (xs ys : List ℚ) (f : UniFun), createAkimaSplineInterpolator xs ys = .ok f →
        ∀ i, i < xs.length → f (.fin (xs.getD i 0)) = .ok (.fin (ys.getD i 0))) ∧
    (∀ (xs ys : List ℚ) (f : UniFun),
        createNearestNeighborInterpolator xs ys = .ok f →
        ∀ i, i < xs.length → f (.fin (xs.getD i 0)) = .ok (.fin (ys.getD i 0))) := by
  refine ⟨?_, ?_, ?_, ?_⟩
  · intro xs ys f h i hi
    rw [createLinearInterpolator] at h
    obtain ⟨sc, hsc, hf⟩ := (except_map_eq_ok _ _ _).mp h
    obtain ⟨hlen, hmin, hsi, hval⟩ := computeLinear_ok_elim hsc
    subst hval
    have hscl : (linearSegmentCoeffs xs ys).length = xs.length - 1 := by
      simp [linearSegmentCoeffs]
    rw [hf, mkPolyInterp,
      evaluatePolySegment_at_knot xs ys _ hsi hscl (by omega) ?_ ?_ i hi]
    · rfl
    · intro j hj
      rw [hscl] at hj
      rw [linearSegmentCoeffs, getD_map_range _ _ j hj, evaluatePoly_trimPoly,
        evaluatePoly_at_zero]
    · intro j hj
      rw [hscl] at hj
      rw [linearSegmentCoeffs, getD_map_range _ _ j hj, evaluatePoly_trimPoly,
        evaluatePoly_pair]
      have hne : xs.getD (j + 1) 0 - xs.getD j 0 ≠ 0 :=
        sub_ne_zero.mpr (ne_of_gt (getD_lt_getD_of_chain_lt hsi (by omega) (by omega)))
      exact linear_seg_end _ _ _ _ hne
  · intro xs ys f h i hi
    rw [createCubicSplineInterpolator] at h
    obtain ⟨sc, hsc, hf⟩ := (except_map_eq_ok _ _ _).mp h
    obtain ⟨hlen, hmin, hsi, hval⟩ := computeCubic_ok_elim hsc
    subst hval
    have hscl : (cubicSegmentCoeffs xs ys).length = xs.length - 1 := by
      simp [cubicSegmentCoeffs]
    rw [hf, mkPolyInterp,
      evaluatePolySegment_at_knot xs ys _ hsi hscl (by omega) ?_ ?_ i hi]
    · rfl
    · intro j hj
      rw [hscl] at hj
      rw [cubicSegmentCoeffs, getD_map_range _ _ j hj, evaluatePoly_trimPoly,
        evaluatePoly_at_zero]
    · intro j hj
      rw [hscl] at hj
      have hne : xs.getD (j + 1) 0 - xs.getD j 0 ≠ 0 :=
        sub_ne_zero.mpr (ne_of_gt (getD_lt_getD_of_chain_lt hsi (by omega) (by omega)))
      rw [cubicSegmentCoeffs, getD_map_range _ _ j hj, evaluatePoly_trimPoly,
        evaluatePoly_quartet, bV, dV, hv]
      exact cubic_seg_end _ _ _ _ _ _ hne
  · intro xs ys f h i hi
    rw [createAkimaSplineInterpolator] at h
    obtain ⟨sc, hsc, hf⟩ := (except_map_eq_ok _ _ _).mp h
    obtain ⟨hlen, hmin, hsi, hval⟩ := computeAkima_ok_elim hsc
    subst hval
    have hscl : (hermiteSegmentCoeffs xs ys
        ((List.range (xs.length - 1 + 1)).map
          (akimaFirstDeriv xs ys (xs.length - 1)))).length = xs.length - 1 := by
      simp [hermiteSegmentCoeffs]
    rw [hf, mkPolyInterp,
      evaluatePolySegment_at_knot xs ys _ hsi hscl (by omega) ?_ ?_ i hi]
    · rfl
    · intro j hj
      rw [hscl] at hj
      rw [hermiteSegmentCoeffs, getD_map_range _ _ j hj]
      simp only []
      rw [evaluatePoly_trimPoly, evaluatePoly_at_zero]
    · intro j hj
      rw [hscl] at hj
      have hne : xs.getD (j + 1) 0 - xs.getD j 0 ≠ 0 :=
        sub_ne_zero.mpr (ne_of_gt (getD_lt_getD_of_chain_lt hsi (by omega) (by omega)))
      rw [hermiteSegmentCoeffs, getD_map_range _ _ j hj]
      simp only []
      rw [evaluatePoly_trimPoly, evaluatePoly_quartet]
      exact hermite_seg_end _ _ _ _ _ _ hne
  · intro xs ys f h i hi
    rcases Nat.lt_or_ge xs.length 2 with hn | hn
    · have h1 : xs.length = 1 := by omega
      unfold createNearestNeighborInterpolator at h
      by_cases hd : xs.length = ys.length
      · rw [if_neg (by omega), if_neg (by omega), if_pos h1] at h
        simp only [Except.ok.injEq] at h
        have hi0 : i = 0 := by omega
        rw [← h, hi0]
      · rw [if_pos (by omega)] at h
        exact Except.noConfusion h
    · obtain ⟨hlen, hsi, hf⟩ := createNN_ok_elim h hn
      subst hf
      rw [nnFun, binarySearch_strict_at xs _ hsi i hi rfl]
      simp only [bind, Except.bind]
      rw [if_pos (by omega)]
      have hti : ((i : Int)).toNat = i := by omega
      rw [hti]
      rfl

/-- Witness for C1: the four creators on concrete minimal datasets,
evaluated at their first knot. -/
theorem C1_knot_values_witness :
    createLinearInterpolator [0, 1] [3, 4] =
      .ok (mkPolyInterp [0, 1] (linearSegmentCoeffs [0, 1] [3, 4])) ∧
    mkPolyInterp [0, 1] (linearSegmentCoeffs [0, 1] [3, 4]) (.fin 0) = .ok (.fin 3) ∧
    createCubicSplineInterpolator [0, 1, 2] [1, 1, 1] =
      .ok (mkPolyInterp [0, 1, 2] (cubicSegmentCoeffs [0, 1, 2] [1, 1, 1])) ∧
    mkPolyInterp [0, 1, 2] (cubicSegmentCoeffs [0, 1, 2] [1, 1, 1]) (.fin 1) =
      .ok (.fin 1) ∧
    createAkimaSplineInterpolator [0, 1, 2, 3, 4] [2, 2, 2, 2, 2] =
      .ok (mkPolyInterp [0, 1, 2, 3, 4] (hermiteSegmentCoeffs [0, 1, 2, 3, 4]
        [2, 2, 2, 2, 2] ((List.range (([0, 1, 2, 3, 4] : List ℚ).length - 1 + 1)).map
          (akimaFirstDeriv [0, 1, 2, 3, 4] [2, 2, 2, 2, 2]
            (([0, 1, 2, 3, 4] : List ℚ).length - 1))))) ∧
    mkPolyInterp [0, 1, 2, 3, 4] (hermiteSegmentCoeffs [0, 1, 2, 3, 4]
        [2, 2, 2, 2, 2] ((List.range (([0, 1, 2, 3, 4] : List ℚ).length - 1 + 1)).map
          (akimaFirstDeriv [0, 1, 2, 3, 4] [2, 2, 2, 2, 2]
            (([0, 1, 2, 3, 4] : List ℚ).length - 1)))) (.fin 4) = .ok (.fin 2) ∧
    createNearestNeighborInterpolator [0, 10] [0, 1] = .ok (nnFun [0, 10] [0, 1]) ∧
    nnFun [0, 10] [0, 1] (.fin 10) = .ok (.fin 1) := by
  have hsi2 : ([0, 1] : List ℚ).Chain' (· < ·) := (strictlyIncB_iff _).mp (by decide)
  have hsi3 : ([0, 1, 2] : List ℚ).Chain' (· < ·) := (strictlyIncB_iff _).mp (by decide)
  have hsi5 : ([0, 1, 2, 3, 4] : List ℚ).Chain' (· < ·) :=
    (strictlyIncB_iff _).mp (by decide)
  have hsiN : ([0, 10] : List ℚ).Chain' (· < ·) := (strictlyIncB_iff _).mp (by decide)
  have hl : createLinearInterpolator [0, 1] [3, 4] =
      .ok (mkPolyInterp [0, 1] (linearSegmentCoeffs [0, 1] [3, 4])) := by
    rw [createLinearInterpolator, computeLinear_ok_intro [0, 1] [3, 4] rfl (by decide) hsi2]
    rfl
  have hc : createCubicSplineInterpolator [0, 1, 2] [1, 1, 1] =
      .ok (mkPolyInterp [0, 1, 2] (cubicSegmentCoeffs [0, 1, 2] [1, 1, 1])) := by
    rw [createCubicSplineInterpolator,
      computeCubic_ok_intro [0, 1, 2] [1, 1, 1] rfl (by decide) hsi3]
    rfl
  have ha : createAkimaSplineInterpolator [0, 1, 2, 3, 4] [2, 2, 2, 2, 2] =
      .ok (mkPolyInterp [0, 1, 2, 3, 4] (hermiteSegmentCoeffs [0, 1, 2, 3, 4]
        [2, 2, 2, 2, 2] ((List.range (([0, 1, 2, 3, 4] : List ℚ).length - 1 + 1)).map
          (akimaFirstDeriv [0, 1, 2, 3, 4] [2, 2, 2, 2, 2]
            (([0, 1, 2, 3, 4] : List ℚ).length - 1))))) := by
    rw [createAkimaSplineInterpolator,
      computeAkima_ok_intro [0, 1, 2, 3, 4] [2, 2, 2, 2, 2] rfl (by decide) hsi5]
    rfl
  have hn : createNearestNeighborInterpolator [0, 10] [0, 1] =
      .ok (nnFun [0, 10] [0, 1]) :=
    createNN_ok_intro [0, 10] [0, 1] rfl (by decide) hsiN
  refine ⟨hl, ?_, hc, ?_, ha, ?_, hn, ?_⟩
  · exact C1_knot_values.1 [0, 1] [3, 4] _ hl 0 (by decide)
  · exact C1_knot_values.2.1 [0, 1, 2] [1, 1, 1] _ hc 1 (by decide)
  · exact C1_knot_values.2.2.1 [0, 1, 2, 3, 4] [2, 2, 2, 2, 2] _ ha 4 (by decide)
  · exact C1_knot_values.2.2.2 [0, 10] [0, 1] _ hn 1 (by decide)

/-! ## Claim C2: natural cubic spline properties -/

theorem hv_pos (xs : List ℚ) (hsi : xs.Chain' (· < ·)) (i : ℕ)
    (h : i < xs.length - 1) : 0 < hv xs i :=
  sub_pos.mpr (getD_lt_getD_of_chain_lt hsi (by omega) (by omega))

/-- The forward sweep is diagonally dominant: each `mu` lies in `[0,1)` and
each pivot `g` is positive, by induction along the loop. -/
theorem muV_gV_bounds (xs : List ℚ) (hsi : xs.Chain' (· < ·)) :
    ∀ i, i < xs.length - 1 →
      (0 ≤ muV xs i ∧ muV xs i < 1) ∧ (1 ≤ i → 0 < gV xs i)
  | 0, _h => ⟨⟨le_refl 0, by norm_num [muV]⟩, by omega⟩
  | i + 1, h => by
    have ih := muV_gV_bounds xs hsi i (by omega)
    have hv0 : 0 < hv xs i := hv_pos xs hsi i (by omega)
    have hv1 : 0 < hv xs (i + 1) := hv_pos xs hsi (i + 1) h
    have hxx : xs.getD (i + 2) 0 - xs.getD i 0 = hv xs i + hv xs (i + 1) := by
      rw [hv, hv]
      ring
    have hmul : hv xs i * muV xs i < hv xs i * 1 :=
      mul_lt_mul_of_pos_left ih.1.2 hv0
    have hmul0 : 0 ≤ hv xs i * muV xs i := mul_nonneg (le_of_lt hv0) ih.1.1
    have hgpos : 0 < gV xs (i + 1) := by
      rw [gV, hxx]
      nlinarith
    have hmu1 : muV xs (i + 1) = hv xs (i + 1) / gV xs (i + 1) := by
      rw [muV, gV]
    refine ⟨⟨?_, ?_⟩, fun _ => hgpos⟩
    · rw [hmu1]
      exact div_nonneg (le_of_lt hv1) (le_of_lt hgpos)
    · rw [hmu1, div_lt_one hgpos, gV, hxx]
      nlinarith

theorem cV_eq (xs ys : List ℚ) (n i : ℕ) (h : i < n) :
    cV xs ys n i = zV xs ys i - muV xs i * cV xs ys n (i + 1) := by
  rw [cV]
  rw [dif_pos h]

theorem cV_of_ge (xs ys : List ℚ) (n i : ℕ) (h : n ≤ i) : cV xs ys n i = 0 := by
  rw [cV]
  rw [dif_neg (by omega)]

theorem cV_zero (xs ys : List ℚ) (n : ℕ) (h : 0 < n) : cV xs ys n 0 = 0 := by
  rw [cV_eq xs ys n 0 h]
  rw [show zV xs ys 0 = 0 from by rw [zV], show muV xs 0 = 0 from by rw [muV]]
  ring

/-- The computed `c` coefficients satisfy the tridiagonal equation
`h_{k} c_{k} + 2(h_k + h_{k+1}) c_{k+1} + h_{k+1} c_{k+2} = alpha_{k+1}`
(stated in denominator-cleared form). -/
theorem cubic_tridiag (xs ys : List ℚ) (hsi : xs.Chain' (· < ·)) (k : ℕ)
    (hk : k + 1 < xs.length - 1) :
    (hv xs k * cV xs ys (xs.length - 1) k +
      2 * (hv xs k + hv xs (k + 1)) * cV xs ys (xs.length - 1) (k + 1) +
      hv xs (k + 1) * cV xs ys (xs.length - 1) (k + 2)) * (hv xs k * hv xs (k + 1)) =
    3 * ((ys.getD (k + 2) 0 - ys.getD (k + 1) 0) * hv xs k -
         (ys.getD (k + 1) 0 - ys.getD k 0) * hv xs (k + 1)) := by
  have hv0 := hv_pos xs hsi k (by omega)
  have hv1 := hv_pos xs hsi (k + 1) (by omega)
  have hb := muV_gV_bounds xs hsi (k + 1) (by omega)
  have hg : 0 < gV xs (k + 1) := hb.2 (by omega)
  have hxx : xs.getD (k + 2) 0 - xs.getD k 0 = hv xs k + hv xs (k + 1) := by
    rw [hv, hv]
    ring
  have hgdef : gV xs (k + 1) = 2 * (hv xs k + hv xs (k + 1)) - hv xs k * muV xs k := by
    rw [gV, hxx]
  rw [cV_eq xs ys _ k (by omega), cV_eq xs ys _ (k + 1) (by omega)]
  rw [show zV xs ys (k + 1) = (3 * (ys.getD (k + 2) 0 * hv xs k -
      ys.getD (k + 1) 0 * (xs.getD (k + 2) 0 - xs.getD k 0) +
      ys.getD k 0 * hv xs (k + 1)) /
      (hv xs k * hv xs (k + 1)) - hv xs k * zV xs ys k) / gV xs (k + 1) from by
    rw [zV]]
  rw [show muV xs (k + 1) = hv xs (k + 1) / gV xs (k + 1) from by rw [muV, gV]]
  rw [hxx]
  have hgne : gV xs (k + 1) ≠ 0 := ne_of_gt hg
  have h0ne : hv xs k ≠ 0 := ne_of_gt hv0
  have h1ne : hv xs (k + 1) ≠ 0 := ne_of_gt hv1
  rw [hgdef] at hgne ⊢
  field_simp
  ring

theorem cubic_bcont_shift (h0 c0 c1 y0 y1 : ℚ) (h0ne : h0 ≠ 0) :
    (y1 - y0) / h0 - h0 * (c1 + 2 * c0) / 3 + 2 * c0 * h0 +
      3 * ((c1 - c0) / (3 * h0)) * h0 ^ 2 =
    (y1 - y0) / h0 + h0 * (c0 + 2 * c1) / 3 := by
  field_simp
  ring

theorem cubic_bcont (h0 h1 c0 c1 c2 y0 y1 y2 : ℚ) (h0ne : h0 ≠ 0) (h1ne : h1 ≠ 0)
    (htri : (h0 * c0 + 2 * (h0 + h1) * c1 + h1 * c2) * (h0 * h1) =
      3 * ((y2 - y1) * h0 - (y1 - y0) * h1)) :
    (y1 - y0) / h0 + h0 * (c0 + 2 * c1) / 3 =
    (y2 - y1) / h1 - h1 * (c2 + 2 * c1) / 3 := by
  field_simp
  linear_combination 3 * htri

theorem cubic_c2end (h c0 c1 : ℚ) (hne : h ≠ 0) :
    2 * c0 + 6 * ((c1 - c0) / (3 * h)) * h = 2 * c1 := by
  field_simp
  ring

theorem cubicSegmentCoeffs_getD (xs ys : List ℚ) (j : ℕ) (hj : j < xs.length - 1) :
    (cubicSegmentCoeffs xs ys).getD j [] =
      trimPoly [ys.getD j 0, bV xs ys (xs.length - 1) j,
        cV xs ys (xs.length - 1) j, dV xs ys (xs.length - 1) j] := by
  rw [cubicSegmentCoeffs, getD_map_range _ _ j hj]

/-- C2: the piecewise cubic from `computeCubicPolyCoefficients` is a
natural cubic spline: the second derivative vanishes at the first and last
knot, and at every interior knot the two adjacent segment polynomials agree
in value, first derivative and second derivative.  Derivatives are the
formal polynomial derivatives of the segment coefficient lists. -/
theorem C2_natural_cubic_spline (xs ys : List ℚ) (sc : List (List ℚ))
    (h : computeCubicPolyCoefficients xs ys = .ok sc) :
    evaluatePoly (polyDeriv (polyDeriv (sc.getD 0 []))) 0 = 0 ∧
    evaluatePoly (polyDeriv (polyDeriv (sc.getD (xs.length - 2) [])))
      (xs.getD (xs.length - 1) 0 - xs.getD (xs.length - 2) 0) = 0 ∧
    (∀ i, 1 ≤ i → i ≤ xs.length - 2 →
      (evaluatePoly (sc.getD (i - 1) []) (xs.getD i 0 - xs.getD (i - 1) 0) =
        evaluatePoly (sc.getD i []) 0) ∧
      (evaluatePoly (polyDeriv (sc.getD (i - 1) []))
          (xs.getD i 0 - xs.getD (i - 1) 0) =
        evaluatePoly (polyDeriv (sc.getD i [])) 0) ∧
      (evaluatePoly (polyDeriv (polyDeriv (sc.getD (i - 1) [])))
          (xs.getD i 0 - xs.getD (i - 1) 0) =
        evaluatePoly (polyDeriv (polyDeriv (sc.getD i []))) 0)) := by
  obtain ⟨hlen, hmin, hsi, hval⟩ := computeCubic_ok_elim h
  subst hval
  have hn2 : 2 ≤ xs.length - 1 := by omega
  refine ⟨?_, ?_, ?_⟩
  · rw [cubicSegmentCoeffs_getD xs ys 0 (by omega), evaluatePoly_polyDeriv2_trimPoly,
      evaluatePoly_polyDeriv2_quartet, cV_zero xs ys _ (by omega)]
    ring
  · have hlast : xs.length - 2 < xs.length - 1 := by omega
    rw [cubicSegmentCoeffs_getD xs ys _ hlast, evaluatePoly_polyDeriv2_trimPoly,
      evaluatePoly_polyDeriv2_quartet]
    have hne : xs.getD (xs.length - 1) 0 - xs.getD (xs.length - 2) 0 ≠ 0 :=
      ne_of_gt (sub_pos.mpr (getD_lt_getD_of_chain_lt hsi (by omega) (by omega)))
    have hstep : xs.length - 2 + 1 = xs.length - 1 := by omega
    rw [dV, hv, hstep]
    have := cubic_c2end (xs.getD (xs.length - 1) 0 - xs.getD (xs.length - 2) 0)
      (cV xs ys (xs.length - 1) (xs.length - 2))
      (cV xs ys (xs.length - 1) (xs.length - 1)) hne
    rw [this, cV_of_ge xs ys _ _ (le_refl _)]
    ring
  · intro i h1i hi
    obtain ⟨k, rfl⟩ : ∃ k, i = k + 1 := ⟨i - 1, by omega⟩
    have hks : k + 1 - 1 = k := by omega
    have hkn : k < xs.length - 1 := by omega
    have hk1n : k + 1 < xs.length - 1 := by omega
    have hne : xs.getD (k + 1) 0 - xs.getD k 0 ≠ 0 :=
      ne_of_gt (sub_pos.mpr (getD_lt_getD_of_chain_lt hsi (by omega) (by omega)))
    have hne1 : xs.getD (k + 2) 0 - xs.getD (k + 1) 0 ≠ 0 :=
      ne_of_gt (sub_pos.mpr (getD_lt_getD_of_chain_lt hsi (by omega) (by omega)))
    rw [hks, cubicSegmentCoeffs_getD xs ys k hkn,
      cubicSegmentCoeffs_getD xs ys (k + 1) hk1n]
    refine ⟨?_, ?_, ?_⟩
    · rw [evaluatePoly_trimPoly, evaluatePoly_trimPoly, evaluatePoly_quartet,
        evaluatePoly_at_zero, bV, dV, hv]
      exact cubic_seg_end _ _ _ _ _ _ hne
    · rw [evaluatePoly_polyDeriv_trimPoly, evaluatePoly_polyDeriv_trimPoly,
        evaluatePoly_polyDeriv_quartet, evaluatePoly_polyDeriv_quartet]
      have hr : bV xs ys (xs.length - 1) (k + 1) + 2 * cV xs ys (xs.length - 1) (k + 1) * 0 +
          3 * dV xs ys (xs.length - 1) (k + 1) * 0 ^ 2 =
          bV xs ys (xs.length - 1) (k + 1) := by ring
      rw [hr, bV, bV, dV, hv, hv]
      have htri := cubic_tridiag xs ys hsi k hk1n
      rw [hv, hv] at htri
      exact (cubic_bcont_shift _ _ _ _ _ hne).trans
        (cubic_bcont _ _ _ _ _ _ _ _ hne hne1 htri)
    · rw [evaluatePoly_polyDeriv2_trimPoly, evaluatePoly_polyDeriv2_trimPoly,
        evaluatePoly_polyDeriv2_quartet, evaluatePoly_polyDeriv2_quartet, dV, hv]
      have := cubic_c2end (xs.getD (k + 1) 0 - xs.getD k 0)
        (cV xs ys (xs.length - 1) k) (cV xs ys (xs.length - 1) (k + 1)) hne
      rw [this]
      ring

/-- Witness for C2 at `xVals = [0, 1, 2]`, `yVals = [0, 1, 0]`. -/
theorem C2_natural_cubic_spline_witness :
    computeCubicPolyCoefficients [0, 1, 2] [0, 1, 0] =
      .ok (cubicSegmentCoeffs [0, 1, 2] [0, 1, 0]) ∧
    evaluatePoly (polyDeriv (polyDeriv
      ((cubicSegmentCoeffs [0, 1, 2] [0, 1, 0]).getD 0 []))) 0 = 0 ∧
    evaluatePoly ((cubicSegmentCoeffs [0, 1, 2] [0, 1, 0]).getD 0 [])
        (([0, 1, 2] : List ℚ).getD 1 0 - ([0, 1, 2] : List ℚ).getD 0 0) =
      evaluatePoly ((cubicSegmentCoeffs [0, 1, 2] [0, 1, 0]).getD 1 []) 0 := by
  have hok : computeCubicPolyCoefficients [0, 1, 2] [0, 1, 0] =
      .ok (cubicSegmentCoeffs [0, 1, 2] [0, 1, 0]) :=
    computeCubic_ok_intro [0, 1, 2] [0, 1, 0] rfl (by decide)
      ((strictlyIncB_iff _).mp (by decide))
  have hthm := C2_natural_cubic_spline [0, 1, 2] [0, 1, 0] _ hok
  exact ⟨hok, hthm.1, (hthm.2.2 1 (by decide) (by decide)).1⟩

/-! ## Claim C6: LOESS knot thinning -/

theorem knotFilterLoop_fin_cons (d x : ℚ) (y : ENum) (rest : List (ℚ × ENum))
    (prev : Option ℚ) :
    knotFilterLoop (.fin d) ((x, y) :: rest) prev =
      if ((match prev with
          | none => true
          | some p => decide (x - p ≥ d)) && !y.isNaNb) = true
      then true :: knotFilterLoop (.fin d) rest (some x)
      else false :: knotFilterLoop (.fin d) rest prev := by
  cases prev <;> rfl

theorem getD_zip_pair (xs : List ℚ) (fit : List ENum) (i : ℕ)
    (hx : i < xs.length) (hf : i < fit.length) :
    (xs.zip fit).getD i ((0 : ℚ), ENum.nan) = (xs.getD i 0, fit.getD i .nan) := by
  induction xs generalizing fit i with
  | nil => simp at hx
  | cons a t ih =>
    cases fit with
    | nil => simp at hf
    | cons b u =>
      cases i with
      | zero => simp [List.zip_cons_cons]
      | succ k =>
        simp only [List.zip_cons_cons, List.getD_cons_succ]
        exact ih u k (by simpa using hx) (by simpa using hf)

/-- The keep/skip decision of `createKnotFilter`'s loop, characterized
against the loop's own output: an entry is kept iff its fitted value is not
NaN and its x is at least `d` above the x of the last kept entry before it
(or above the carried-in `prev` when nothing before it is kept). -/
theorem knotFilterLoop_iff (d : ℚ) :
    ∀ (l : List (ℚ × ENum)) (prev : Option ℚ) (i : ℕ), i < l.length →
      ((knotFilterLoop (.fin d) l prev).getD i false = true ↔
        ((l.getD i ((0 : ℚ), ENum.nan)).2.isNaNb = false ∧
          (∀ j, j < i → (knotFilterLoop (.fin d) l prev).getD j false = true →
            (∀ j2, j < j2 → j2 < i →
              (knotFilterLoop (.fin d) l prev).getD j2 false = false) →
            d ≤ (l.getD i ((0 : ℚ), ENum.nan)).1 -
              (l.getD j ((0 : ℚ), ENum.nan)).1) ∧
          ((∀ j, j < i → (knotFilterLoop (.fin d) l prev).getD j false = false) →
            ∀ p, prev = some p →
              d ≤ (l.getD i ((0 : ℚ), ENum.nan)).1 - p)))
  | [], _prev, i, hi => by simp at hi
  | (x, y) :: rest, prev, i, hi => by
    rw [knotFilterLoop_fin_cons]
    by_cases hkeep : ((match prev with
        | none => true
        | some p => decide (x - p ≥ d)) && !y.isNaNb) = true
    · rw [if_pos hkeep]
      cases i with
      | zero =>
        simp only [List.getD_cons_zero]
        rw [Bool.and_eq_true, Bool.not_eq_true'] at hkeep
        constructor
        · intro _
          refine ⟨hkeep.2, fun j hj => by omega, fun _ p hp => ?_⟩
          cases prev with
          | none => exact absurd hp (by simp)
          | some p0 =>
            cases hp
            simpa using of_decide_eq_true hkeep.1
        · intro _
          trivial
      | succ k =>
        have hk : k < rest.length := by simpa using hi
        have ih := knotFilterLoop_iff d rest (some x) k hk
        simp only [List.getD_cons_succ]
        rw [ih]
        constructor
        · rintro ⟨ha, hb, hc⟩
          refine ⟨ha, ?_, fun hall _p _hp => absurd (hall 0 (by omega)) (by simp)⟩
          intro j hj hkept hnone
          cases j with
          | zero =>
            simp only [List.getD_cons_zero] at hkept
            have hall : ∀ k2, k2 < k →
                (knotFilterLoop (.fin d) rest (some x)).getD k2 false = false := by
              intro k2 hk2
              have := hnone (k2 + 1) (by omega) (by omega)
              simpa using this
            simpa using hc hall x rfl
          | succ j0 =>
            simp only [List.getD_cons_succ] at hkept
            have hall : ∀ k2, j0 < k2 → k2 < k →
                (knotFilterLoop (.fin d) rest (some x)).getD k2 false = false := by
              intro k2 h1 h2
              have := hnone (k2 + 1) (by omega) (by omega)
              simpa using this
            simpa using hb j0 (by omega) hkept hall
        · rintro ⟨ha, hb, _⟩
          refine ⟨ha, ?_, ?_⟩
          · intro j hj hkept hnone
            have := hb (j + 1) (by omega) (by simpa using hkept) ?_
            · simpa using this
            · intro j2 h1 h2
              obtain ⟨k2, rfl⟩ : ∃ k2, j2 = k2 + 1 := ⟨j2 - 1, by omega⟩
              simpa using hnone k2 (by omega) (by omega)
          · intro hnone p hp
            have h0 := hb 0 (by omega) (by simp) ?_
            · obtain rfl : x = p := by injection hp
              simpa using h0
            · intro j2 h1 h2
              obtain ⟨k2, rfl⟩ : ∃ k2, j2 = k2 + 1 := ⟨j2 - 1, by omega⟩
              simpa using hnone k2 (by omega)
    · rw [if_neg hkeep]
      cases i with
      | zero =>
        simp only [List.getD_cons_zero]
        rw [Bool.and_eq_true, Bool.not_eq_true'] at hkeep
        constructor
        · intro hfalse
          exact absurd hfalse (by simp)
        · rintro ⟨ha, _, hc⟩
          exfalso
          apply hkeep
          refine ⟨?_, ha⟩
          cases prev with
          | none => rfl
          | some p0 =>
            have := hc (fun j hj => by omega) p0 rfl
            simpa using this
      | succ k =>
        have hk : k < rest.length := by simpa using hi
        have ih := knotFilterLoop_iff d rest prev k hk
        simp only [List.getD_cons_succ]
        rw [ih]
        constructor
        · rintro ⟨ha, hb, hc⟩
          refine ⟨ha, ?_, ?_⟩
          · intro j hj hkept hnone
            cases j with
            | zero => simp at hkept
            | succ j0 =>
              simp only [List.getD_cons_succ] at hkept
              have hall : ∀ k2, j0 < k2 → k2 < k →
                  (knotFilterLoop (.fin d) rest prev).getD k2 false = false := by
                intro k2 h1 h2
                simpa using hnone (k2 + 1) (by omega) (by omega)
              simpa using hb j0 (by omega) hkept hall
          · intro hnone p hp
            have hall : ∀ j, j < k →
                (knotFilterLoop (.fin d) rest prev).getD j false = false := by
              intro j hj
              simpa using hnone (j + 1) (by omega)
            simpa using hc hall p hp
        · rintro ⟨ha, hb, hc⟩
          refine ⟨ha, ?_, ?_⟩
          · intro j hj hkept hnone
            have := hb (j + 1) (by omega) (by simpa using hkept) ?_
            · simpa using this
            · intro j2 h1 h2
              obtain ⟨k2, rfl⟩ : ∃ k2, j2 = k2 + 1 := ⟨j2 - 1, by omega⟩
              simpa using hnone k2 (by omega) (by omega)
          · intro hnone p hp
            have hall : ∀ j, j < k + 1 →
                (false :: knotFilterLoop (.fin d) rest prev).getD j false = false := by
              intro j hj
              cases j with
              | zero => simp
              | succ j0 => simpa using hnone j0 (by omega)
            have := hc hall p hp
            simpa using this

/-- Kept x-values are strictly increasing whenever `minXDistance > 0`:
each kept entry lies at least `d` above the previously kept one. -/
theorem keptXs_chain (d : ℚ) (hd : 0 < d) :
    ∀ (l : List (ℚ × ENum)) (prev : Option ℚ),
      (filterNumberArray (l.map Prod.fst)
          (knotFilterLoop (.fin d) l prev)).Chain' (· < ·) ∧
      (∀ p, prev = some p →
        ∀ z ∈ filterNumberArray (l.map Prod.fst) (knotFilterLoop (.fin d) l prev),
          p < z)
  | [], prev => by
    constructor
    · simp [filterNumberArray, knotFilterLoop]
    · intro p _ z hz
      simp [filterNumberArray, knotFilterLoop] at hz
  | (x, y) :: rest, prev => by
    rw [knotFilterLoop_fin_cons, List.map_cons]
    by_cases hkeep : ((match prev with
        | none => true
        | some p => decide (x - p ≥ d)) && !y.isNaNb) = true
    · rw [if_pos hkeep]
      have ih := keptXs_chain d hd rest (some x)
      have hfila : filterNumberArray (x :: rest.map Prod.fst)
          (true :: knotFilterLoop (.fin d) rest (some x)) =
          x :: filterNumberArray (rest.map Prod.fst)
            (knotFilterLoop (.fin d) rest (some x)) := by
        simp [filterNumberArray, List.zip_cons_cons]
      rw [hfila]
      constructor
      · rw [List.chain'_cons']
        refine ⟨fun b hb => ih.2 x rfl b (List.mem_of_mem_head? hb), ih.1⟩
      · intro p hp z hz
        rw [Bool.and_eq_true] at hkeep
        have hxp : d ≤ x - p := by
          cases hp
          exact of_decide_eq_true hkeep.1
        rcases List.mem_cons.mp hz with rfl | hz2
        · linarith
        · have := ih.2 x rfl z hz2
          linarith
    · rw [if_neg hkeep]
      have ih := keptXs_chain d hd rest prev
      have hfila : filterNumberArray (x :: rest.map Prod.fst)
          (false :: knotFilterLoop (.fin d) rest prev) =
          filterNumberArray (rest.map Prod.fst)
            (knotFilterLoop (.fin d) rest prev) := by
        simp [filterNumberArray, List.zip_cons_cons]
      rw [hfila]
      exact ih

/-- Kept fitted values are never NaN: the keep condition tests `!isNaN`. -/
theorem keptYs_noNan (minXD : ENum) :
    ∀ (l : List (ℚ × ENum)) (prev : Option ℚ) (z : ENum),
      z ∈ filterNumberArray (l.map Prod.snd) (knotFilterLoop minXD l prev) →
      z.isNaNb = false
  | [], prev, z => by
    intro hz
    simp [filterNumberArray, knotFilterLoop] at hz
  | (x, y) :: rest, prev, z => by
    intro hz
    rw [List.map_cons] at hz
    cases minXD with
    | nan =>
      rw [show knotFilterLoop .nan ((x, y) :: rest) prev =
          false :: knotFilterLoop .nan rest prev from rfl] at hz
      have hfila : filterNumberArray ((x, y).2 :: rest.map Prod.snd)
          (false :: knotFilterLoop .nan rest prev) =
          filterNumberArray (rest.map Prod.snd)
            (knotFilterLoop .nan rest prev) := by
        simp [filterNumberArray, List.zip_cons_cons]
      rw [hfila] at hz
      exact keptYs_noNan .nan rest prev z hz
    | fin d =>
      rw [knotFilterLoop_fin_cons] at hz
      split at hz
      · rename_i hkeep
        have hfila : filterNumberArray ((x, y).2 :: rest.map Prod.snd)
            (true :: knotFilterLoop (.fin d) rest (some x)) =
            (x, y).2 :: filterNumberArray (rest.map Prod.snd)
              (knotFilterLoop (.fin d) rest (some x)) := by
          simp [filterNumberArray, List.zip_cons_cons]
        rw [hfila] at hz
        rcases List.mem_cons.mp hz with rfl | hz2
        · rw [Bool.and_eq_true, Bool.not_eq_true'] at hkeep
          exact hkeep.2
        · exact keptYs_noNan (.fin d) rest (some x) z hz2
      · rename_i hkeep
        have hfila : filterNumberArray ((x, y).2 :: rest.map Prod.snd)
            (false :: knotFilterLoop (.fin d) rest prev) =
            filterNumberArray (rest.map Prod.snd)
              (knotFilterLoop (.fin d) rest prev) := by
          simp [filterNumberArray, List.zip_cons_cons]
        rw [hfila] at hz
        exact keptYs_noNan (.fin d) rest prev z hz

/-- C6: LOESS knot thinning.  A point is kept iff its fitted y is not NaN
and its x is at least `minXDistance` above the previously kept knot's x
(no constraint when nothing earlier is kept, matching the `-Infinity`
start); hence for positive `minXDistance` the kept knot x-values are
strictly increasing and the kept fitted values NaN-free; the claim's
concrete instance and the default `minXDistance` are as stated. -/
theorem C6_knot_thinning :
    (∀ (xs : List ℚ) (fit : List ENum) (d : ℚ) (i : ℕ), i < xs.length →
      fit.length = xs.length →
      ((createKnotFilter xs fit (.fin d)).getD i false = true ↔
        ((fit.getD i .nan).isNaNb = false ∧
          (∀ j, j < i → (createKnotFilter xs fit (.fin d)).getD j false = true →
            (∀ j2, j < j2 → j2 < i →
              (createKnotFilter xs fit (.fin d)).getD j2 false = false) →
            d ≤ xs.getD i 0 - xs.getD j 0)))) ∧
    (∀ (xs : List ℚ) (fit : List ENum) (d : ℚ), 0 < d →
      (filterNumberArray xs (createKnotFilter xs fit (.fin d))).Chain' (· < ·) ∨
        ¬ fit.length = xs.length) ∧
    (∀ (xs : List ℚ) (fit : List ENum) (minXD : ENum) (z : ENum),
      fit.length = xs.length →
      z ∈ filterNumberArray fit (createKnotFilter xs fit minXD) →
      z.isNaNb = false) ∧
    (∀ xs : List ℚ, xs ≠ [] →
      getDefaultMinXDistance xs =
        (if xs.getD (xs.length - 1) 0 - xs.getD 0 0 = 0 then .fin 1
         else .fin ((xs.getD (xs.length - 1) 0 - xs.getD 0 0) / 100))) ∧
    createKnotFilter [0, 1, 2, 6, 11] [.fin 0, .fin 0, .fin 0, .fin 0, .fin 0]
      (.fin 5) = [true, false, false, true, true] := by
  refine ⟨?_, ?_, ?_, ?_, ?_⟩
  · intro xs fit d i hi hlen
    have hzlen : i < (xs.zip fit).length := by
      rw [List.length_zip]
      omega
    have hloop := knotFilterLoop_iff d (xs.zip fit) none i hzlen
    rw [createKnotFilter]
    rw [hloop]
    have hpair : ∀ k, k < xs.length →
        (xs.zip fit).getD k ((0 : ℚ), ENum.nan) = (xs.getD k 0, fit.getD k .nan) :=
      fun k hk => getD_zip_pair xs fit k hk (by omega)
    constructor
    · rintro ⟨ha, hb, _⟩
      rw [hpair i hi] at ha
      refine ⟨ha, fun j hj hkj hnj => ?_⟩
      have := hb j hj hkj hnj
      rw [hpair i hi, hpair j (by omega)] at this
      exact this
    · rintro ⟨ha, hb⟩
      refine ⟨?_, fun j hj hkj hnj => ?_, fun _ p hp => absurd hp (by simp)⟩
      · rw [hpair i hi]
        exact ha
      · rw [hpair i hi, hpair j (by omega)]
        exact hb j hj hkj hnj
  · intro xs fit d hd
    by_cases hlen : fit.length = xs.length
    · left
      have := (keptXs_chain d hd (xs.zip fit) none).1
      rw [show (xs.zip fit).map Prod.fst = xs from
        List.map_fst_zip xs fit (by omega)] at this
      exact this
    · right
      exact hlen
  · intro xs fit minXD z hlen hz
    have := keptYs_noNan minXD (xs.zip fit) none z
    rw [show (xs.zip fit).map Prod.snd = fit from
      List.map_snd_zip xs fit (by omega)] at this
    exact this hz
  · intro xs hne
    rw [getDefaultMinXDistance,
      if_neg (fun h => hne (List.length_eq_zero.mp h))]
  · rw [createKnotFilter]
    rw [show ([0, 1, 2, 6, 11] : List ℚ).zip
        ([.fin 0, .fin 0, .fin 0, .fin 0, .fin 0] : List ENum) =
        [(0, .fin 0), (1, .fin 0), (2, .fin 0), (6, .fin 0), (11, .fin 0)] from rfl]
    rw [knotFilterLoop_fin_cons]
    rw [if_pos (by norm_num [ENum.isNaNb])]
    rw [knotFilterLoop_fin_cons]
    rw [if_neg (by norm_num [ENum.isNaNb])]
    rw [knotFilterLoop_fin_cons]
    rw [if_neg (by norm_num [ENum.isNaNb])]
    rw [knotFilterLoop_fin_cons]
    rw [if_pos (by norm_num [ENum.isNaNb])]
    rw [knotFilterLoop_fin_cons]
    rw [if_pos (by norm_num [ENum.isNaNb])]
    rfl

/-- Witness for C6: the keep/skip characterization applied at the claim's
concrete dataset (x-values `[0,1,2,6,11]`, `minXDistance = 5`, index 3). -/
theorem C6_knot_thinning_witness :
    ((createKnotFilter [0, 1, 2, 6, 11] [.fin 0, .fin 0, .fin 0, .fin 0, .fin 0]
        (.fin 5)).getD 3 false = true ↔
      (((([.fin 0, .fin 0, .fin 0, .fin 0, .fin 0] : List ENum).getD 3 .nan).isNaNb
          = false) ∧
        (∀ j, j < 3 → (createKnotFilter [0, 1, 2, 6, 11]
            [.fin 0, .fin 0, .fin 0, .fin 0, .fin 0] (.fin 5)).getD j false = true →
          (∀ j2, j < j2 → j2 < 3 → (createKnotFilter [0, 1, 2, 6, 11]
              [.fin 0, .fin 0, .fin 0, .fin 0, .fin 0] (.fin 5)).getD j2 false
                = false) →
          (5 : ℚ) ≤ ([0, 1, 2, 6, 11] : List ℚ).getD 3 0 -
            ([0, 1, 2, 6, 11] : List ℚ).getD j 0))) :=
  C6_knot_thinning.1 [0, 1, 2, 6, 11] [.fin 0, .fin 0, .fin 0, .fin 0, .fin 0] 5 3
    (by decide) (by decide)

/-- `getD` through `map ENum.fin` with default `fin 0` needs no bound:
out of range, both sides give the zero default. -/
theorem getD_map_fin0 (l : List ℚ) (k : ℕ) :
    (l.map ENum.fin).getD k (.fin 0) = .fin (l.getD k 0) := by
  by_cases h : k < l.length
  · exact getD_map_fin l k h _
  · have h1 : l.length ≤ k := le_of_not_lt h
    rw [List.getD_eq_default _ _ (by simpa using h1),
      List.getD_eq_default _ _ h1]

/-- One step of the regression loop with finite caller weights computes, in
ℚ, the running sums of `w`, `x·w`, `x·(x·w)`, `y·w`, `y·(x·w)`. -/
theorem locRegStep_fin (xs ys ws : List ℚ) (x maxDist : ℚ)
    (a b c d e : ℚ) (k : ℕ) :
    locRegStep xs ys (some (ws.map .fin)) x maxDist
      (.fin a, .fin b, .fin c, .fin d, .fin e) k =
    (.fin (a + locRegWeight xs ws x maxDist k),
     .fin (b + xs.getD k 0 * locRegWeight xs ws x maxDist k),
     .fin (c + xs.getD k 0 * (xs.getD k 0 * locRegWeight xs ws x maxDist k)),
     .fin (d + ys.getD k 0 * locRegWeight xs ws x maxDist k),
     .fin (e + ys.getD k 0 * (xs.getD k 0 * locRegWeight xs ws x maxDist k))) := by
  simp only [locRegStep, locRegWeight, getD_map_fin0]
  rfl

/-- The regression loop over any index list accumulates the five ℚ sums. -/
theorem locReg_foldl (xs ys ws : List ℚ) (x maxDist : ℚ) :
    ∀ (ks : List ℕ) (a b c d e : ℚ),
      ks.foldl (locRegStep xs ys (some (ws.map .fin)) x maxDist)
        (.fin a, .fin b, .fin c, .fin d, .fin e) =
      (.fin (a + (ks.map (locRegWeight xs ws x maxDist)).sum),
       .fin (b + (ks.map fun k =>
         xs.getD k 0 * locRegWeight xs ws x maxDist k).sum),
       .fin (c + (ks.map fun k =>
         xs.getD k 0 * (xs.getD k 0 * locRegWeight xs ws x maxDist k)).sum),
       .fin (d + (ks.map fun k =>
         ys.getD k 0 * locRegWeight xs ws x maxDist k).sum),
       .fin (e + (ks.map fun k =>
         ys.getD k 0 * (xs.getD k 0 * locRegWeight xs ws x maxDist k)).sum))
  | [], a, b, c, d, e => by simp
  | k :: ks, a, b, c, d, e => by
    rw [List.foldl_cons, locRegStep_fin, locReg_foldl xs ys ws x maxDist ks]
    simp only [List.map_cons, List.sum_cons, Prod.mk.injEq, ENum.fin.injEq]
    refine ⟨by ring, by ring, by ring, by ring, by ring⟩

/-- C5: on a sorted window `iLeft ≤ iRight` with finite caller weights,
`calculateLocalLinearRegression` throws nothing and returns exactly the
claim's value: NaN when the total tri-cube weight is below `1e-12`,
otherwise `meanY + beta·(x - meanX)` with the weighted means and the
accuracy² guard on beta's denominator.  (In the degenerate all-equal-x
window the code's `maxDist = 1` fixup agrees with the spec formula, as
every distance is 0.) -/
theorem C5_local_regression (xs ys ws : List ℚ) (x : ℚ) (iLeft iRight : ℕ)
    (accuracy : ℚ) (hsort : monotoneIncB xs = true) (hlr : iLeft ≤ iRight)
    (hr : iRight < xs.length) :
    calculateLocalLinearRegression xs ys (some (ws.map .fin)) x iLeft iRight
      accuracy = .ok (localRegressionSpec xs ys ws x iLeft iRight accuracy) := by
  have hchain := (monotoneIncB_iff xs).mp hsort
  have hLR : xs.getD iLeft 0 ≤ xs.getD iRight 0 :=
    getD_le_getD_of_chain_le hchain hlr hr
  have hmax : 0 ≤ max (x - xs.getD iLeft 0) (xs.getD iRight 0 - x) := by
    rcases le_or_lt 0 (x - xs.getD iLeft 0) with h | h
    · exact le_max_of_le_left h
    · exact le_max_of_le_right (by linarith)
  have hM0nn :
      0 ≤ max (x - xs.getD iLeft 0) (xs.getD iRight 0 - x) * (1001 / 1000) :=
    mul_nonneg hmax (by norm_num)
  have hw : ∀ k ∈ List.range' iLeft (iRight + 1 - iLeft),
      locRegWeight xs ws x
        (if max (x - xs.getD iLeft 0) (xs.getD iRight 0 - x) * (1001 / 1000) = 0
          then 1
          else max (x - xs.getD iLeft 0) (xs.getD iRight 0 - x) * (1001 / 1000)) k
      = locRegWeight xs ws x
          (max (x - xs.getD iLeft 0) (xs.getD iRight 0 - x) * (1001 / 1000)) k := by
    intro k hk
    by_cases h0 :
        max (x - xs.getD iLeft 0) (xs.getD iRight 0 - x) * (1001 / 1000) = 0
    · have hmax0 : max (x - xs.getD iLeft 0) (xs.getD iRight 0 - x) = 0 := by
        rcases mul_eq_zero.mp h0 with h | h
        · exact h
        · norm_num at h
      obtain ⟨hklo, hkhi⟩ := List.mem_range'_1.mp hk
      have hkhi2 : k ≤ iRight := by omega
      have h1 : x - xs.getD iLeft 0 ≤ 0 :=
        le_trans (le_max_left _ _) (le_of_eq hmax0)
      have h2 : xs.getD iRight 0 - x ≤ 0 :=
        le_trans (le_max_right _ _) (le_of_eq hmax0)
      have hk1 : xs.getD iLeft 0 ≤ xs.getD k 0 :=
        getD_le_getD_of_chain_le hchain hklo (lt_of_le_of_lt hkhi2 hr)
      have hk2 : xs.getD k 0 ≤ xs.getD iRight 0 :=
        getD_le_getD_of_chain_le hchain hkhi2 hr
      have hxk : xs.getD k 0 = x := by linarith
      rw [if_pos h0, locRegWeight, locRegWeight, hxk, h0]
      norm_num
    · rw [if_neg h0]
  have hm1 := List.map_congr_left hw
  have hm2 := List.map_congr_left fun k hk =>
    congrArg (fun q => xs.getD k 0 * q) (hw k hk)
  have hm3 := List.map_congr_left fun k hk =>
    congrArg (fun q => xs.getD k 0 * (xs.getD k 0 * q)) (hw k hk)
  have hm4 := List.map_congr_left fun k hk =>
    congrArg (fun q => ys.getD k 0 * q) (hw k hk)
  have hm5 := List.map_congr_left fun k hk =>
    congrArg (fun q => ys.getD k 0 * (xs.getD k 0 * q)) (hw k hk)
  simp only [calculateLocalLinearRegression, localRegressionSpec]
  rw [if_neg (not_lt.mpr hM0nn)]
  rw [locReg_foldl]
  simp only [zero_add]
  rw [hm1, hm2, hm3, hm4, hm5]
  simp only [ENum.add, ENum.sub, ENum.mul, ENum.div, ENum.abs, blt_fin_fin,
    decide_eq_true_eq]
  split_ifs with hSw hbeta
  · rfl
  · simp only [ENum.add, ENum.sub, ENum.mul, ENum.div, ENum.abs]
    exact congrArg Except.ok (congrArg ENum.fin (by ring))
  · simp only [ENum.add, ENum.sub, ENum.mul, ENum.div, ENum.abs]
    exact congrArg Except.ok (congrArg ENum.fin (by ring))

/-- Witness for C5: the regression over the 3-point window of
`xs = [0, 1, 2]` with unit caller weights at `x = 1`. -/
theorem C5_local_regression_witness :
    calculateLocalLinearRegression [0, 1, 2] [1, 3, 5]
      (some (([1, 1, 1] : List ℚ).map .fin)) 1 0 2 (1 / 1000) =
      .ok (localRegressionSpec [0, 1, 2] [1, 3, 5] [1, 1, 1] 1 0 2 (1 / 1000)) :=
  C5_local_regression [0, 1, 2] [1, 3, 5] [1, 1, 1] 1 0 2 (1 / 1000)
    (by decide) (by decide) (by decide)

end CMI
